import Mathlib

/-!
Verification of the Glicko-2 rating engine in `ratings.py` (repository
MartinTintin3/florank).

The Python module is shallowly embedded here.  Python floats are modelled as
real numbers, datetimes as real-valued timestamps (seconds), dictionaries as
association lists (insertion-ordered, as in CPython) or as total functions
where only lookup matters, and `defaultdict` defaults are made explicit.
Names follow the source (`SCALE`, `Glicko2State`, `process_period` ->
`processPeriod`, ...), and each definition carries the source line numbers it
embeds.
-/

/-- ratings.py line 18: `SCALE = 173.7178`. -/
noncomputable def SCALE : ℝ := 173.7178

/-- ratings.py line 19: `DEFAULT_RATING = 1500.0`. -/
noncomputable def DEFAULT_RATING : ℝ := 1500.0

/-- ratings.py line 20: `DEFAULT_RD = 350.0`. -/
noncomputable def DEFAULT_RD : ℝ := 350.0

/-- ratings.py line 21: `DEFAULT_SIGMA = 0.06`. -/
noncomputable def DEFAULT_SIGMA : ℝ := 0.06

/-- ratings.py line 22: `MAX_RD = 350.0`. -/
noncomputable def MAX_RD : ℝ := 350.0

/-- ratings.py line 23: `MIN_RD = 30.0`. -/
noncomputable def MIN_RD : ℝ := 30.0

/-- ratings.py line 24: `SEASON_RD_FLOOR = 150.0`. -/
noncomputable def SEASON_RD_FLOOR : ℝ := 150.0

/-- ratings.py line 25: `RECENT_WEIGHT_MATCHES = 5`. -/
def RECENT_WEIGHT_MATCHES : ℕ := 5

/-- ratings.py lines 44-49: the win-type weight table. -/
noncomputable def WIN_TYPE_WEIGHTS : List (String × ℝ) :=
  [("F", 1.0), ("TF", 0.9), ("MD", 0.8), ("DEC", 0.7)]

/-- ratings.py line 50: `DEFAULT_OTHER_WEIGHT = 0.65`. -/
noncomputable def DEFAULT_OTHER_WEIGHT : ℝ := 0.65

/-- ratings.py lines 72-76: per-athlete rating state (dataclass `Glicko2State`). -/
structure Glicko2State where
  rating : ℝ
  rd : ℝ
  sigma : ℝ

/-- The default `Glicko2State()` (lines 74-76 defaults). -/
noncomputable def defaultState : Glicko2State :=
  ⟨DEFAULT_RATING, DEFAULT_RD, DEFAULT_SIGMA⟩

/-- ratings.py lines 61-69: dataclass `MatchResult`.  `date` is a timestamp in
seconds (datetimes are modelled as reals). -/
structure MatchResult where
  id : String
  date : ℝ
  top_id : String
  bottom_id : String
  winner_id : Option String
  win_type : Option String
  weight_class : Option String

/-- ratings.py lines 54-58: dataclass `RatingPeriod`.  The source field `end`
is a Lean keyword and is embedded as `endT`. -/
structure RatingPeriod where
  start : ℝ
  endT : ℝ
  season : String

/-- ratings.py lines 87-104: class `Glicko2` - configuration plus the mutable
per-athlete state dict and weight-class history (both insertion-ordered
association lists, as in CPython dicts). -/
structure Glicko2 where
  tau : ℝ
  win_type_weights : List (String × ℝ)
  min_rd : ℝ
  max_rd : ℝ
  season_rd_floor : ℝ
  weight_history_limit : ℕ
  states : List (String × Glicko2State)
  weight_history : List (String × List String)

/-- ratings.py lines 88-104: `Glicko2.__init__` with the default arguments
used by `run_simulation` (line 350): default weight table, default RD bounds,
`weight_history_limit = max(1, RECENT_WEIGHT_MATCHES) = 5`, empty dicts. -/
noncomputable def glicko2Init (tau : ℝ) (season_rd_floor : ℝ) : Glicko2 :=
  ⟨tau, WIN_TYPE_WEIGHTS, MIN_RD, MAX_RD, season_rd_floor,
    max 1 RECENT_WEIGHT_MATCHES, [], []⟩

/-- First-match association-list lookup (CPython dict lookup). -/
def alookup {β : Type} : List (String × β) → String → Option β
  | [], _ => none
  | p :: rest, k => if p.1 = k then some p.2 else alookup rest k

/-- In-place association-list update with a default for absent keys
(`defaultdict` access followed by mutation); preserves insertion order and
appends new keys at the end, as CPython dicts do. -/
def aupdate {β : Type} (l : List (String × β)) (k : String) (d : β) (f : β → β) :
    List (String × β) :=
  match l with
  | [] => [(k, f d)]
  | p :: rest => if p.1 = k then (k, f p.2) :: rest else p :: aupdate rest k d f

/-- Counter increment: `Counter[key] += 1` keeping first-insertion order (new keys appended). -/
def bumpCounter : List (String × ℕ) → String → List (String × ℕ)
  | [], k => [(k, 1)]
  | p :: rest, k =>
    if p.1 = k then (k, p.2 + 1) :: rest else p :: bumpCounter rest k

/-- ratings.py lines 153-155: `counter[removed] -= 1; if counter[removed] <= 0:
del counter[removed]`.  A key whose count reaches zero is removed; a missing
key would go to -1 and be deleted, i.e. stay absent. -/
def decCounter : List (String × ℕ) → String → List (String × ℕ)
  | [], _ => []
  | p :: rest, k =>
    if p.1 = k then (if p.2 ≤ 1 then rest else (k, p.2 - 1) :: rest)
    else p :: decCounter rest k

/-- ratings.py lines 106-108: `ensure_player` - insert a default state if the
athlete id is unseen, otherwise leave the dict unchanged. -/
noncomputable def ensurePlayer (e : Glicko2) (wrestler_id : String) : Glicko2 :=
  if (alookup e.states wrestler_id).isSome then e
  else { e with states := e.states ++ [(wrestler_id, defaultState)] }

/-- The state recorded for an id, defaulting to `Glicko2State()` ("state or
default"); used to phrase lookups of ids that `ensure_player` has created. -/
noncomputable def sod (states : List (String × Glicko2State)) (wrestler_id : String) :
    Glicko2State :=
  (alookup states wrestler_id).getD defaultState

/-- ratings.py lines 110-111: `_g(phi) = 1 / sqrt(1 + 3 phi^2 / pi^2)`. -/
noncomputable def g (phi : ℝ) : ℝ :=
  1 / Real.sqrt (1 + 3 * phi ^ 2 / Real.pi ^ 2)

/-- ratings.py lines 113-114: `_expected(mu, mu_j, phi_j)
= 1 / (1 + exp(-g(phi_j) * (mu - mu_j)))`. -/
noncomputable def expectedScore (mu mu_j phi_j : ℝ) : ℝ :=
  1 / (1 + Real.exp (-(g phi_j) * (mu - mu_j)))

/-- ratings.py lines 116-120: `win_probability(player, opponent)`. -/
noncomputable def winProbability (player opponent : Glicko2State) : ℝ :=
  expectedScore ((player.rating - DEFAULT_RATING) / SCALE)
    ((opponent.rating - DEFAULT_RATING) / SCALE)
    (opponent.rd / SCALE)

/-- ratings.py lines 122-124: `_win_weight` - table lookup on the upper-cased
win-type code (with `None` mapped to `""`), defaulting to 0.65. -/
noncomputable def winWeight (e : Glicko2) (win_type : Option String) : ℝ :=
  (alookup e.win_type_weights (win_type.getD "").toUpper).getD DEFAULT_OTHER_WEIGHT

/-- ratings.py lines 130-132 applied to one state: phi grows to
`sqrt(phi^2 + months * sigma^2)` and RD is clamped back to bounds. -/
noncomputable def inflateState (e : Glicko2) (months : ℝ) (s : Glicko2State) :
    Glicko2State :=
  let phi := s.rd / SCALE
  let phi2 := Real.sqrt (phi * phi + months * s.sigma * s.sigma)
  { s with rd := min e.max_rd (max e.min_rd (phi2 * SCALE)) }

/-- An in-place update of every value of the state dict (`for state in
self.states.values(): ...` mutation loops). -/
def mapStates (f : Glicko2State → Glicko2State) (l : List (String × Glicko2State)) :
    List (String × Glicko2State) :=
  l.map (fun p => (p.1, f p.2))

/-- ratings.py lines 126-132: `inflate_for_gap(months)` - a no-op for
non-positive gaps, otherwise every tracked state is inflated. -/
noncomputable def inflateForGap (e : Glicko2) (months : ℝ) : Glicko2 :=
  if months ≤ 0 then e
  else { e with states := mapStates (inflateState e months) e.states }

/-- ratings.py lines 134-138: `reset_rd_for_season` - raise each RD to at
least the (bounded) season floor, never lowering it. -/
noncomputable def resetRdForSeason (e : Glicko2) : Glicko2 :=
  let floor := max e.min_rd (min e.max_rd e.season_rd_floor)
  { e with states :=
      mapStates (fun s => { s with rd := min e.max_rd (max s.rd floor) }) e.states }

/-- Helper: a short algebraic fact used for the `win_probability` claims -
the logistic values at `t` and `-t` sum to 1. -/
theorem sigmoid_add_neg (t : ℝ) :
    1 / (1 + Real.exp (-t)) + 1 / (1 + Real.exp t) = 1 := by
  have h1 : (0:ℝ) < 1 + Real.exp (-t) := by positivity
  have h2 : (0:ℝ) < 1 + Real.exp t := by positivity
  rw [Real.exp_neg]
  have h3 : Real.exp t ≠ 0 := Real.exp_ne_zero t
  field_simp
  ring

/-- Helper: the logistic function is strictly monotone. -/
theorem sigmoid_strictMono (x y : ℝ) (h : x < y) :
    1 / (1 + Real.exp (-x)) < 1 / (1 + Real.exp (-y)) := by
  have he : Real.exp (-y) < Real.exp (-x) := Real.exp_lt_exp.mpr (by linarith)
  have h2 : (0:ℝ) < 1 + Real.exp (-y) := by positivity
  exact one_div_lt_one_div_of_lt h2 (by linarith)

/-- Helper: `g` is strictly antitone on nonnegative arguments. -/
theorem g_strictAnti (x y : ℝ) (hx : 0 ≤ x) (hxy : x < y) : g y < g x := by
  unfold g
  have hpi : (0:ℝ) < Real.pi ^ 2 := by positivity
  have harg : 1 + 3 * x ^ 2 / Real.pi ^ 2 < 1 + 3 * y ^ 2 / Real.pi ^ 2 := by
    have hsq : x ^ 2 < y ^ 2 := by nlinarith
    gcongr
  have h0 : (0:ℝ) < 1 + 3 * x ^ 2 / Real.pi ^ 2 := by positivity
  have hs : Real.sqrt (1 + 3 * x ^ 2 / Real.pi ^ 2)
      < Real.sqrt (1 + 3 * y ^ 2 / Real.pi ^ 2) := Real.sqrt_lt_sqrt (le_of_lt h0) harg
  have hsx : (0:ℝ) < Real.sqrt (1 + 3 * x ^ 2 / Real.pi ^ 2) := Real.sqrt_pos.mpr h0
  exact one_div_lt_one_div_of_lt hsx hs

/-- Helper: `g` is positive. -/
theorem g_pos (x : ℝ) : 0 < g x := by
  unfold g
  have h0 : (0:ℝ) < 1 + 3 * x ^ 2 / Real.pi ^ 2 := by positivity
  exact one_div_pos.mpr (Real.sqrt_pos.mpr h0)

/-- Helper: `expectedScore` is strictly between 0 and 1. -/
theorem expectedScore_mem (mu mu_j phi_j : ℝ) :
    0 < expectedScore mu mu_j phi_j ∧ expectedScore mu mu_j phi_j < 1 := by
  unfold expectedScore
  have he : (0:ℝ) < Real.exp (-(g phi_j) * (mu - mu_j)) := Real.exp_pos _
  constructor
  · positivity
  · rw [div_lt_one (by positivity)]
    linarith

/-- The concrete pair of states refuting the symmetry claim C3: `cA` has a
small RD, `cB` a large one, and their ratings differ. -/
noncomputable def cA : Glicko2State := ⟨1600, 30, 0.06⟩

/-- Second state of the C3 counterexample pair. -/
noncomputable def cB : Glicko2State := ⟨1500, 350, 0.06⟩

/-- C3 counterexample: `win_probability(A,B) + win_probability(B,A) = 1` fails
at `A = (1600, 30, 0.06)`, `B = (1500, 350, 0.06)`.  The two directions use
`g` of the phi of the *opponent* only, so with unequal RDs the sum is strictly
below 1 (here by about 0.044, far beyond floating-point tolerance). -/
theorem c3_counterexample :
    winProbability cA cB + winProbability cB cA < 1 ∧
      winProbability cA cB + winProbability cB cA ≠ 1 := by
  have hd : (0:ℝ) < (cA.rating - DEFAULT_RATING) / SCALE
      - (cB.rating - DEFAULT_RATING) / SCALE := by
    show (0:ℝ) < ((1600:ℝ) - DEFAULT_RATING) / SCALE - ((1500:ℝ) - DEFAULT_RATING) / SCALE
    unfold DEFAULT_RATING SCALE
    norm_num
  have hphi : cA.rd / SCALE < cB.rd / SCALE := by
    show (30:ℝ) / SCALE < (350:ℝ) / SCALE
    unfold SCALE
    norm_num
  have hphiA : (0:ℝ) ≤ cA.rd / SCALE := by
    show (0:ℝ) ≤ (30:ℝ) / SCALE
    unfold SCALE
    norm_num
  have hg : g (cB.rd / SCALE) < g (cA.rd / SCALE) := g_strictAnti _ _ hphiA hphi
  set dAB : ℝ := (cA.rating - DEFAULT_RATING) / SCALE - (cB.rating - DEFAULT_RATING) / SCALE
    with hdAB
  have hx : g (cB.rd / SCALE) * dAB < g (cA.rd / SCALE) * dAB :=
    mul_lt_mul_of_pos_right hg hd
  have hmono := sigmoid_strictMono _ _ hx
  have hBA : winProbability cB cA
      = 1 - 1 / (1 + Real.exp (-(g (cA.rd / SCALE) * dAB))) := by
    unfold winProbability expectedScore
    have harg : -(g (cA.rd / SCALE))
        * ((cB.rating - DEFAULT_RATING) / SCALE - (cA.rating - DEFAULT_RATING) / SCALE)
        = g (cA.rd / SCALE) * dAB := by rw [hdAB]; ring
    rw [harg]
    have := sigmoid_add_neg (g (cA.rd / SCALE) * dAB)
    linarith
  have hAB : winProbability cA cB
      = 1 / (1 + Real.exp (-(g (cB.rd / SCALE) * dAB))) := by
    unfold winProbability expectedScore
    have harg : -(g (cB.rd / SCALE))
        * ((cA.rating - DEFAULT_RATING) / SCALE - (cB.rating - DEFAULT_RATING) / SCALE)
        = -(g (cB.rd / SCALE) * dAB) := by rw [hdAB]; ring
    rw [harg]
  constructor
  · rw [hAB, hBA]; linarith
  · rw [hAB, hBA]; intro hcontra; linarith

/-- C3 (amended): the directed win probabilities of a pair sum to exactly 1
whenever the two states have equal RD (in particular for any pair with the
same rating deviation); `win_probability` in the code uses only the opponent
RD in `g`, so equal RDs restore the symmetry. -/
theorem c3_amended_win_probability_symm (a b : Glicko2State) (h : a.rd = b.rd) :
    winProbability a b + winProbability b a = 1 := by
  unfold winProbability expectedScore
  rw [h]
  set c := g (b.rd / SCALE) with hc
  set d := (a.rating - DEFAULT_RATING) / SCALE - (b.rating - DEFAULT_RATING) / SCALE
    with hdd
  have h1 : -c * ((a.rating - DEFAULT_RATING) / SCALE - (b.rating - DEFAULT_RATING) / SCALE)
      = -(c * d) := by rw [hdd]; ring
  have h2 : -c * ((b.rating - DEFAULT_RATING) / SCALE - (a.rating - DEFAULT_RATING) / SCALE)
      = c * d := by rw [hdd]; ring
  rw [h1, h2]
  exact sigmoid_add_neg (c * d)

/-- Witness for the amended theorem of C3 at a concrete equal-RD pair. -/
theorem c3_witness :
    winProbability (Glicko2State.mk 1700 120 0.06) (Glicko2State.mk 1400 120 0.05)
      + winProbability (Glicko2State.mk 1400 120 0.05) (Glicko2State.mk 1700 120 0.06) = 1 :=
  c3_amended_win_probability_symm (Glicko2State.mk 1700 120 0.06)
    (Glicko2State.mk 1400 120 0.05) rfl

/-- ratings.py lines 196-200: the inner function `f(x)` of `_update_player`,
with `phi_star`, `v`, `delta`, `a = log(sigma^2)` and `tau` as parameters. -/
noncomputable def fVol (tau phi_star v delta a x : ℝ) : ℝ :=
  Real.exp x * (delta ^ 2 - phi_star ^ 2 - v - Real.exp x)
      / (2 * (phi_star ^ 2 + v + Real.exp x) ^ 2)
    - (x - a) / tau ^ 2

/-- ratings.py lines 206-208: the downward bracket expansion
`k = 1; while f(a - k*tau) < 0: k += 1` exits if and only if some step
`k >= 1` reaches `f(a - k*tau) >= 0`. -/
def ExpansionTerminates (tau phi_star v delta a : ℝ) : Prop :=
  ∃ k : ℕ, 1 ≤ k ∧ 0 ≤ fVol tau phi_star v delta a (a - k * tau)

/-- The number of expansion steps actually taken: the least `k >= 1` with
`f(a - k*tau) >= 0` (0 when the loop would never exit). -/
noncomputable def expansionK (tau phi_star v delta a : ℝ) : ℕ :=
  sInf {k : ℕ | 1 ≤ k ∧ 0 ≤ fVol tau phi_star v delta a (a - k * tau)}

/-- ratings.py line 215: the false-position point
`C = A + (A - B) * fA / (fB - fA)`. -/
noncomputable def illinoisC (A B fA fB : ℝ) : ℝ :=
  A + (A - B) * fA / (fB - fA)

/-- The `(A, B, fA, fB)` state of the Illinois loop (lines 211-223). -/
structure IllState where
  A : ℝ
  B : ℝ
  fA : ℝ
  fB : ℝ

/-- ratings.py lines 214-223: one iteration of the Illinois loop, a no-op
once the loop guard `|B - A| > 1e-6` fails. -/
noncomputable def illinoisStep (fn : ℝ → ℝ) (s : IllState) : IllState :=
  if |s.B - s.A| ≤ 1e-6 then s
  else
    let C := illinoisC s.A s.B s.fA s.fB
    let fC := fn C
    if fC * s.fB < 0 then ⟨s.B, C, s.fB, fC⟩ else ⟨s.A, C, s.fA / 2, fC⟩

/-- The state in which the Illinois loop of lines 214-223 stops: the first
iterate whose bracket width is at most 1e-6 (the initial state when the loop
would never stop - the embedding is total, the Python loop is not). -/
noncomputable def illinoisFinal (fn : ℝ → ℝ) (s0 : IllState) : IllState :=
  (illinoisStep fn)^[sInf {n : ℕ |
    |((illinoisStep fn)^[n] s0).B - ((illinoisStep fn)^[n] s0).A| ≤ 1e-6}] s0

/-- ratings.py lines 173-181: `v_inv` as a sum over the result triples
`(opponent, score, weight)`. -/
noncomputable def vInv (mu : ℝ) (results : List (Glicko2State × ℝ × ℝ)) : ℝ :=
  (results.map (fun r =>
    r.2.2 * g (r.1.rd / SCALE) ^ 2
      * expectedScore mu ((r.1.rating - DEFAULT_RATING) / SCALE) (r.1.rd / SCALE)
      * (1 - expectedScore mu ((r.1.rating - DEFAULT_RATING) / SCALE) (r.1.rd / SCALE)))).sum

/-- ratings.py lines 174-182: `delta_sum` as a sum over the result triples. -/
noncomputable def deltaSum (mu : ℝ) (results : List (Glicko2State × ℝ × ℝ)) : ℝ :=
  (results.map (fun r =>
    r.2.2 * g (r.1.rd / SCALE)
      * (r.2.1 - expectedScore mu ((r.1.rating - DEFAULT_RATING) / SCALE) (r.1.rd / SCALE)))).sum

/-- ratings.py lines 166-171 and 184-189: the no-result (or zero-variance)
branch of `_update_player` - rating and sigma are kept, RD gets the
pre-period widening `phi* = sqrt(phi^2 + sigma^2)` and is clamped. -/
noncomputable def emptyUpdate (e : Glicko2) (player : Glicko2State) : Glicko2State :=
  let phi := player.rd / SCALE
  let phi_star := Real.sqrt (phi * phi + player.sigma * player.sigma)
  ⟨player.rating, min e.max_rd (max e.min_rd (phi_star * SCALE)), player.sigma⟩

/-- ratings.py lines 157-233: `_update_player`.  The volatility root-find is
embedded through `expansionK` / `illinoisFinal` above; every branch returns a
state whose RD is clamped to `[min_rd, max_rd]`, exactly as in the source. -/
noncomputable def updatePlayer (e : Glicko2) (player : Glicko2State)
    (results : List (Glicko2State × ℝ × ℝ)) : Glicko2State :=
  let mu := (player.rating - DEFAULT_RATING) / SCALE
  let phi := player.rd / SCALE
  let phi_star := Real.sqrt (phi * phi + player.sigma * player.sigma)
  if results.isEmpty then emptyUpdate e player
  else if vInv mu results = 0 then emptyUpdate e player
  else
    let v := 1 / vInv mu results
    let delta := v * deltaSum mu results
    let a := Real.log (player.sigma ^ 2)
    let fn := fVol e.tau phi_star v delta a
    let B := if delta ^ 2 > phi_star ^ 2 + v then Real.log (delta ^ 2 - phi_star ^ 2 - v)
      else a - (expansionK e.tau phi_star v delta a : ℝ) * e.tau
    let fin := illinoisFinal fn ⟨a, B, fn a, fn B⟩
    let sigma_prime := Real.exp (fin.A / 2)
    let phi_prime := 1 / Real.sqrt (1 / (phi_star ^ 2 + sigma_prime ^ 2) + 1 / v)
    let mu_prime := mu + phi_prime ^ 2 * deltaSum mu results
    ⟨DEFAULT_RATING + mu_prime * SCALE,
      min e.max_rd (max e.min_rd (phi_prime * SCALE)), sigma_prime⟩

/-- Concrete player for the C1 counterexample: default rating and RD, but
`sigma = 1` (so `a = log(sigma^2) = 0`); any float is a legal `sigma`. -/
noncomputable def c1player : Glicko2State := ⟨1500, 350, 1⟩

/-- Concrete result list for the C1 counterexample: one game against a
default-state opponent with score 1/2 and weight 1 (`_update_player` accepts
arbitrary float scores and weights). -/
noncomputable def c1results : List (Glicko2State × ℝ × ℝ) := [(defaultState, 1 / 2, 1)]

/-- The `mu` computed by `_update_player` (line 162) on the C1 input. -/
noncomputable def c1mu : ℝ := (c1player.rating - DEFAULT_RATING) / SCALE

/-- The `phi_star` computed by `_update_player` (line 164) on the C1 input. -/
noncomputable def c1phiStar : ℝ :=
  Real.sqrt ((c1player.rd / SCALE) * (c1player.rd / SCALE)
    + c1player.sigma * c1player.sigma)

/-- The `v = 1 / v_inv` (line 191) on the C1 input. -/
noncomputable def c1v : ℝ := 1 / vInv c1mu c1results

/-- The `delta = v * delta_sum` (line 192) on the C1 input. -/
noncomputable def c1delta : ℝ := c1v * deltaSum c1mu c1results

/-- The `a = log(sigma^2)` (line 194) on the C1 input. -/
noncomputable def c1a : ℝ := Real.log (c1player.sigma ^ 2)

/-- Helper: the expected score of two equal `mu`s is exactly 1/2. -/
theorem expectedScore_self (phi_j : ℝ) : expectedScore 0 0 phi_j = 1 / 2 := by
  unfold expectedScore
  rw [sub_zero, mul_zero, Real.exp_zero]
  norm_num

/-- Helper: `mu = 0` on the C1 input. -/
theorem c1mu_eq : c1mu = 0 := by
  unfold c1mu c1player DEFAULT_RATING SCALE
  norm_num

/-- Helper: `delta_sum = 0` on the C1 input (the score equals the expected
score, so the single summand vanishes). -/
theorem c1deltaSum_eq : deltaSum c1mu c1results = 0 := by
  unfold deltaSum c1results
  rw [c1mu_eq]
  have hmu : (defaultState.rating - DEFAULT_RATING) / SCALE = 0 := by
    unfold defaultState
    rw [sub_self, zero_div]
  simp only [List.map_cons, List.map_nil, List.sum_cons, List.sum_nil, hmu]
  rw [expectedScore_self]
  ring

/-- Helper: `v_inv > 0` on the C1 input. -/
theorem c1vInv_pos : 0 < vInv c1mu c1results := by
  unfold vInv c1results
  rw [c1mu_eq]
  have hmu : (defaultState.rating - DEFAULT_RATING) / SCALE = 0 := by
    unfold defaultState
    rw [sub_self, zero_div]
  simp only [List.map_cons, List.map_nil, List.sum_cons, List.sum_nil, hmu]
  rw [expectedScore_self]
  have hg := g_pos (defaultState.rd / SCALE)
  nlinarith

/-- Helper: `v > 0` on the C1 input. -/
theorem c1v_pos : 0 < c1v := by
  unfold c1v
  exact one_div_pos.mpr c1vInv_pos

/-- Helper: `delta = 0` and `a = 0` on the C1 input. -/
theorem c1delta_a_eq : c1delta = 0 ∧ c1a = 0 := by
  constructor
  · unfold c1delta
    rw [c1deltaSum_eq, mul_zero]
  · unfold c1a c1player
    norm_num

/-- C1 counterexample: on the concrete `_update_player` input
(`c1player`, `c1results`) with `tau = -1/2`, the case split of line 203 sends
the solver into the bracket expansion (`delta^2 <= phi_star^2 + v`), and the
expansion loop `while f(a - k*tau) < 0` never finds a sign change: stepping
with a negative `tau` moves `x` upward, where `f(x) < 0` for every step, so
`_update_player` loops forever.  The root-finder therefore does not terminate
for every input, and no fail-fast guard exists. -/
theorem c1_counterexample :
    c1delta ^ 2 ≤ c1phiStar ^ 2 + c1v ∧
      ¬ ExpansionTerminates (-(1 / 2)) c1phiStar c1v c1delta c1a := by
  obtain ⟨hdelta, ha⟩ := c1delta_a_eq
  have hv := c1v_pos
  have hS : (0:ℝ) ≤ c1phiStar ^ 2 := sq_nonneg _
  constructor
  · rw [hdelta]
    nlinarith
  · rintro ⟨k, hk1, hk2⟩
    rw [hdelta, ha] at hk2
    have hx : (0:ℝ) < 0 - (k : ℝ) * (-(1 / 2)) := by
      have : (1:ℝ) ≤ (k : ℝ) := by exact_mod_cast hk1
      nlinarith
    set x : ℝ := 0 - (k : ℝ) * (-(1 / 2)) with hxdef
    unfold fVol at hk2
    have hE : (0:ℝ) < Real.exp x := Real.exp_pos x
    have hnum : Real.exp x * ((0:ℝ) ^ 2 - c1phiStar ^ 2 - c1v - Real.exp x) < 0 := by
      nlinarith
    have hden : (0:ℝ) < 2 * (c1phiStar ^ 2 + c1v + Real.exp x) ^ 2 := by positivity
    have hterm1 : Real.exp x * ((0:ℝ) ^ 2 - c1phiStar ^ 2 - c1v - Real.exp x)
        / (2 * (c1phiStar ^ 2 + c1v + Real.exp x) ^ 2) < 0 :=
      div_neg_of_neg_of_pos hnum hden
    have hterm2 : (0:ℝ) < (x - 0) / (-(1 / 2)) ^ 2 := by
      rw [sub_zero]
      positivity
    linarith

/-- C1 (amended): for the parameter signs the enclosing program actually
produces (`tau > 0` from the candidate list, `v > 0` past the `v_inv == 0`
guard), the bracket expansion of lines 206-208 finds a sign change within at
most `tau/2 + 1` steps, so the loop exits after a bounded number of
iterations; and every iteration of the Illinois loop (the line-215
false-position point) lands strictly inside the current bracket, so each
iteration strictly shrinks the bracket width `|B - A|`.  (The code contains
no fail-fast step cap, and the 1e-6 exit of the Illinois loop itself carries
no iteration bound.) -/
theorem c1_amended_rootfinder (tau phi_star v delta a : ℝ)
    (htau : 0 < tau) (hv : 0 < v) :
    (∃ k : ℕ, 1 ≤ k ∧ (k : ℝ) ≤ tau / 2 + 1 ∧
      0 ≤ fVol tau phi_star v delta a (a - k * tau)) ∧
    (∀ A B fa fb : ℝ, A ≠ B → fa * fb < 0 →
      |illinoisC A B fa fb - A| < |B - A| ∧ |illinoisC A B fa fb - B| < |B - A|) := by
  constructor
  · refine ⟨max 1 (Nat.ceil (tau / 2)), le_max_left _ _, ?_, ?_⟩
    · rw [Nat.cast_max]
      have h0 : (0:ℝ) ≤ tau / 2 := by linarith
      have hc : ((Nat.ceil (tau / 2) : ℕ) : ℝ) < tau / 2 + 1 := Nat.ceil_lt_add_one h0
      have h1 : (1:ℝ) ≤ tau / 2 + 1 := by linarith
      exact max_le (by exact_mod_cast h1) (le_of_lt hc)
    · set k : ℕ := max 1 (Nat.ceil (tau / 2)) with hkdef
      have hk : tau / 2 ≤ (k : ℝ) := by
        rw [hkdef, Nat.cast_max]
        exact le_max_of_le_right (Nat.le_ceil _)
      have htau0 : tau ≠ 0 := ne_of_gt htau
      unfold fVol
      have hxa : a - (k : ℝ) * tau - a = -((k : ℝ) * tau) := by ring
      rw [hxa]
      have hterm2 : -((k : ℝ) * tau) / tau ^ 2 = -((k : ℝ) / tau) := by
        field_simp
        ring
      rw [hterm2]
      set E := Real.exp (a - (k : ℝ) * tau) with hE
      have hEpos : (0:ℝ) < E := Real.exp_pos _
      set S := phi_star ^ 2 + v with hS
      have hSpos : (0:ℝ) < S := by
        rw [hS]
        nlinarith [sq_nonneg phi_star]
      have hden : (0:ℝ) < 2 * (S + E) ^ 2 := by positivity
      have hT1 : -(1 / 2) ≤ E * (delta ^ 2 - S - E) / (2 * (S + E) ^ 2) := by
        rw [le_div_iff hden]
        nlinarith [sq_nonneg delta, mul_pos hSpos hEpos, sq_nonneg S,
          mul_nonneg (le_of_lt hEpos) (sq_nonneg delta)]
      have hkτ : 1 / 2 ≤ (k : ℝ) / tau := by
        rw [le_div_iff htau]
        linarith
      have hgoal : 0 ≤ E * (delta ^ 2 - S - E) / (2 * (S + E) ^ 2) - -((k : ℝ) / tau) := by
        linarith
      calc (0:ℝ) ≤ E * (delta ^ 2 - S - E) / (2 * (S + E) ^ 2) - -((k : ℝ) / tau) := hgoal
        _ = E * (delta ^ 2 - phi_star ^ 2 - v - E) / (2 * (phi_star ^ 2 + v + E) ^ 2)
            - -((k : ℝ) / tau) := by rw [hS]; ring_nf
  · intro A B fa fb hAB hfab
    have hABpos : (0:ℝ) < |A - B| := abs_pos.mpr (sub_ne_zero.mpr hAB)
    have hBA : |B - A| = |A - B| := abs_sub_comm B A
    rcases mul_neg_iff.mp hfab with ⟨hfa, hfb⟩ | ⟨hfa, hfb⟩
    · -- fa > 0, fb < 0
      have hd : fb - fa < 0 := by linarith
      have hd0 : fb - fa ≠ 0 := ne_of_lt hd
      have h1 : illinoisC A B fa fb - A = (A - B) * fa / (fb - fa) := by
        unfold illinoisC
        ring
      have h2 : illinoisC A B fa fb - B = (A - B) * fb / (fb - fa) := by
        unfold illinoisC
        field_simp
        ring
      have habs : |fb - fa| = fa - fb := by
        rw [abs_of_neg hd]
        ring
      constructor
      · rw [h1, abs_div, abs_mul, habs, hBA, div_lt_iff (by linarith)]
        have hfa' : |fa| = fa := abs_of_pos hfa
        rw [hfa']
        nlinarith
      · rw [h2, abs_div, abs_mul, habs, hBA, div_lt_iff (by linarith)]
        have hfb' : |fb| = -fb := abs_of_neg hfb
        rw [hfb']
        nlinarith
    · -- fa < 0, fb > 0
      have hd : (0:ℝ) < fb - fa := by linarith
      have hd0 : fb - fa ≠ 0 := ne_of_gt hd
      have h1 : illinoisC A B fa fb - A = (A - B) * fa / (fb - fa) := by
        unfold illinoisC
        ring
      have h2 : illinoisC A B fa fb - B = (A - B) * fb / (fb - fa) := by
        unfold illinoisC
        field_simp
        ring
      have habs : |fb - fa| = fb - fa := abs_of_pos hd
      constructor
      · rw [h1, abs_div, abs_mul, habs, hBA, div_lt_iff hd]
        have hfa' : |fa| = -fa := abs_of_neg hfa
        rw [hfa']
        nlinarith
      · rw [h2, abs_div, abs_mul, habs, hBA, div_lt_iff hd]
        have hfb' : |fb| = fb := abs_of_pos hfb
        rw [hfb']
        nlinarith

/-- Witness for the amended theorem of C1 at `tau = 1`, `v = 1`. -/
theorem c1_witness :
    (∃ k : ℕ, 1 ≤ k ∧ (k : ℝ) ≤ 1 / 2 + 1 ∧ 0 ≤ fVol 1 0 1 0 0 (0 - k * 1)) ∧
    (∀ A B fa fb : ℝ, A ≠ B → fa * fb < 0 →
      |illinoisC A B fa fb - A| < |B - A| ∧ |illinoisC A B fa fb - B| < |B - A|) := by
  have h := c1_amended_rootfinder 1 0 1 0 0 (by norm_num) (by norm_num)
  exact ⟨by simpa using h.1, h.2⟩

/-- ratings.py line 245: a match is rated only when its winner id equals one
of the two participants. -/
def validMatch (m : MatchResult) : Prop :=
  m.winner_id = some m.top_id ∨ m.winner_id = some m.bottom_id

instance validMatch.dec (m : MatchResult) : Decidable (validMatch m) := by
  unfold validMatch
  infer_instance

/-- ratings.py line 257: `actual_top = 1.0 if match.winner_id == match.top_id
else 0.0`. -/
noncomputable def actualTop (m : MatchResult) : ℝ :=
  if m.winner_id = some m.top_id then 1.0 else 0.0

/-- The winner id as a plain string (in the rated branch `winner_id` is one of
the participants, so the `""` default is never used). -/
def winnerOf (m : MatchResult) : String := m.winner_id.getD ""

/-- ratings.py line 264: `loser = bottom if winner == top else top`. -/
def loserOf (m : MatchResult) : String :=
  if m.winner_id = some m.top_id then m.bottom_id else m.top_id

/-- ratings.py lines 140-155: `_record_weight_class` - append to the
sliding weight-class window of the athlete, bump the usage counter, and pop the
oldest entry (decrementing its count) once the window exceeds the limit.
`if not weight_class` treats both `None` and `""` as falsy. -/
def recordWeightClass (e : Glicko2) (wrestler_id : String) (weight_class : Option String)
    (wc : List (String × List (String × ℕ))) :
    Glicko2 × List (String × List (String × ℕ)) :=
  if weight_class = none ∨ weight_class = some "" then (e, wc)
  else
    let w := weight_class.getD ""
    let history := (alookup e.weight_history wrestler_id).getD [] ++ [w]
    let wc1 := aupdate wc wrestler_id [] (fun c => bumpCounter c w)
    if e.weight_history_limit < history.length then
      ({ e with weight_history := aupdate e.weight_history wrestler_id [] (fun _ => history.tail) },
        aupdate wc1 wrestler_id [] (fun c => decCounter c history.headI))
    else
      ({ e with weight_history := aupdate e.weight_history wrestler_id [] (fun _ => history) }, wc1)

/-- The running accumulator of the match loop in `process_period` (lines
241-265): engine (states + weight history), the `results_by_player`
defaultdict, the prediction list, and the two caller-owned accumulators. -/
structure PeriodAcc where
  e : Glicko2
  rb : String → List (Glicko2State × ℝ × ℝ)
  preds : List (ℝ × ℝ)
  h2h : String × String → ℕ
  wc : List (String × List (String × ℕ))

/-- ratings.py lines 244-265: the body of the per-match loop of
`process_period`.  Skips non-rated matches; otherwise ensures both players,
records weight classes, reads both (pre-update) states, appends the
prediction, appends one result triple to the list of each participant (top first,
as in the source), and bumps the head-to-head tally. -/
noncomputable def processMatch (acc : PeriodAcc) (m : MatchResult) : PeriodAcc :=
  if validMatch m then
    let e1 := ensurePlayer (ensurePlayer acc.e m.top_id) m.bottom_id
    let r1 := recordWeightClass e1 m.top_id m.weight_class acc.wc
    let r2 := recordWeightClass r1.1 m.bottom_id m.weight_class r1.2
    let e2 := r2.1
    let top_state := sod e2.states m.top_id
    let bottom_state := sod e2.states m.bottom_id
    let weight := winWeight e2 m.win_type
    let rb1 : String → List (Glicko2State × ℝ × ℝ) := fun j =>
      if j = m.top_id then acc.rb j ++ [(bottom_state, actualTop m, weight)] else acc.rb j
    let rb2 : String → List (Glicko2State × ℝ × ℝ) := fun j =>
      if j = m.bottom_id then rb1 j ++ [(top_state, 1 - actualTop m, weight)] else rb1 j
    { e := e2
      rb := rb2
      preds := acc.preds ++ [(winProbability top_state bottom_state, actualTop m)]
      h2h := fun k => if k = (winnerOf m, loserOf m) then acc.h2h k + 1 else acc.h2h k
      wc := r2.2 }
  else acc

/-- The output bundle of `process_period`: the updated engine, the two
accumulators, and the returned prediction list. -/
structure PeriodResult where
  engine : Glicko2
  h2h : String × String → ℕ
  wc : List (String × List (String × ℕ))
  predictions : List (ℝ × ℝ)

/-- ratings.py lines 267-272: the `new_states` dict - every tracked athlete
is re-run through `_update_player` with `results_by_player.get(id, [])`. -/
noncomputable def updateAll (eng : Glicko2) (rb : String → List (Glicko2State × ℝ × ℝ))
    (l : List (String × Glicko2State)) : List (String × Glicko2State) :=
  l.map (fun p => (p.1, updatePlayer eng p.2 (rb p.1)))

/-- ratings.py lines 235-275: `process_period` - run the match loop, then
rebuild the state dict by applying `_update_player` to every tracked athlete
with their accumulated results (`results_by_player.get(id, [])`). -/
noncomputable def processPeriod (e : Glicko2) (ms : List MatchResult)
    (h2h : String × String → ℕ) (wc : List (String × List (String × ℕ))) :
    PeriodResult :=
  let acc := ms.foldl processMatch ⟨e, fun _ => [], [], h2h, wc⟩
  { engine := { acc.e with states := updateAll acc.e acc.rb acc.e.states }
    h2h := acc.h2h
    wc := acc.wc
    predictions := acc.preds }

/-- The per-participant result triples a single match contributes in
`process_period` (lines 261-262), expressed against the pre-period states
(which is what the loop reads - `ensure_player` only inserts defaults and
never changes an existing value). -/
noncomputable def entriesFor (e : Glicko2) (sts : List (String × Glicko2State))
    (m : MatchResult) (j : String) : List (Glicko2State × ℝ × ℝ) :=
  if validMatch m then
    (if j = m.top_id then [(sod sts m.bottom_id, actualTop m, winWeight e m.win_type)] else []) ++
    (if j = m.bottom_id then [(sod sts m.top_id, 1 - actualTop m, winWeight e m.win_type)] else [])
  else []

/-- All result triples athlete `j` accumulates over a match list. -/
noncomputable def collectEntries (e : Glicko2) (sts : List (String × Glicko2State))
    (j : String) : List MatchResult → List (Glicko2State × ℝ × ℝ)
  | [] => []
  | m :: rest => entriesFor e sts m j ++ collectEntries e sts j rest

/-- The prediction pair a single match appends (lines 256-258), against the
pre-period states; `none` for non-rated matches. -/
noncomputable def predFor (sts : List (String × Glicko2State)) (m : MatchResult) :
    Option (ℝ × ℝ) :=
  if validMatch m then
    some (winProbability (sod sts m.top_id) (sod sts m.bottom_id), actualTop m)
  else none

/-- Whether athlete `j` takes part in at least one rated match of the list
(such athletes are exactly the ones `ensure_player` may newly insert). -/
def touched (j : String) (ms : List MatchResult) : Bool :=
  ms.any (fun m => decide (validMatch m) && (j == m.top_id || j == m.bottom_id))

/-- Lookup distributes over appending association lists. -/
theorem alookup_append {β : Type} (l1 l2 : List (String × β)) (k : String) :
    alookup (l1 ++ l2) k = (alookup l1 k).orElse (fun _ => alookup l2 k) := by
  induction l1 with
  | nil => rfl
  | cons p rest ih =>
    by_cases h : p.1 = k
    · simp [alookup, h]
    · simp [alookup, h, ih]

/-- Lookup after a key-preserving value map. -/
theorem alookup_map {β γ : Type} (l : List (String × β)) (f : String → β → γ) (k : String) :
    alookup (l.map (fun p => (p.1, f p.1 p.2))) k = (alookup l k).map (f k) := by
  induction l with
  | nil => rfl
  | cons p rest ih =>
    by_cases h : p.1 = k
    · subst h
      simp [alookup]
    · simp [alookup, h, ih]

/-- Lemma: `ensure_player` never changes the value stored for an existing key; for a
new key it stores the default.  Phrased through `sod`. -/
theorem alookup_ensure (e : Glicko2) (i j : String) :
    alookup (ensurePlayer e i).states j =
      if j = i then some (sod e.states i) else alookup e.states j := by
  unfold ensurePlayer sod
  by_cases h : (alookup e.states i).isSome
  · rw [if_pos h]
    by_cases hj : j = i
    · subst hj
      obtain ⟨v, hv⟩ := Option.isSome_iff_exists.mp h
      rw [if_pos rfl, hv]
      rfl
    · rw [if_neg hj]
  · rw [if_neg h]
    have hnone : alookup e.states i = none := Option.not_isSome_iff_eq_none.mp h
    by_cases hj : j = i
    · subst hj
      rw [if_pos rfl, alookup_append, hnone]
      simp [alookup]
    · rw [if_neg hj, alookup_append]
      have hij : ¬ (i = j) := fun hh => hj hh.symm
      have hnil : alookup [(i, defaultState)] j = none := by
        simp [alookup, hij]
      rw [hnil]
      cases alookup e.states j <;> rfl

/-- Lemma: `sod` is invariant under `ensure_player`. -/
theorem sod_ensure (e : Glicko2) (i j : String) :
    sod (ensurePlayer e i).states j = sod e.states j := by
  unfold sod
  rw [alookup_ensure]
  by_cases hj : j = i
  · subst hj
    rw [if_pos rfl]
    rfl
  · rw [if_neg hj]

/-- Lemma: `ensure_player` touches only the state dict. -/
theorem ensure_fields (e : Glicko2) (i : String) :
    (ensurePlayer e i).tau = e.tau ∧ (ensurePlayer e i).min_rd = e.min_rd ∧
    (ensurePlayer e i).max_rd = e.max_rd ∧
    (ensurePlayer e i).win_type_weights = e.win_type_weights := by
  unfold ensurePlayer
  split <;> exact ⟨rfl, rfl, rfl, rfl⟩

/-- Lemma: `_record_weight_class` touches only the weight history (and the
caller-owned counter dict); states and configuration are untouched. -/
theorem recordWeightClass_fields (e : Glicko2) (i : String) (w : Option String)
    (wc : List (String × List (String × ℕ))) :
    (recordWeightClass e i w wc).1.states = e.states ∧
    (recordWeightClass e i w wc).1.tau = e.tau ∧
    (recordWeightClass e i w wc).1.min_rd = e.min_rd ∧
    (recordWeightClass e i w wc).1.max_rd = e.max_rd ∧
    (recordWeightClass e i w wc).1.win_type_weights = e.win_type_weights := by
  refine ⟨?_, ?_, ?_, ?_, ?_⟩ <;>
    (unfold recordWeightClass
     split
     · rfl
     · dsimp only
       split <;> rfl)

/-- Lemma: `_win_weight` only reads the weight table. -/
theorem winWeight_congr (e1 e2 : Glicko2) (wt : Option String)
    (h : e1.win_type_weights = e2.win_type_weights) :
    winWeight e1 wt = winWeight e2 wt := by
  unfold winWeight
  rw [h]

/-- Lemma: `_update_player` only reads `tau` and the RD bounds from the engine. -/
theorem updatePlayer_congr (e1 e2 : Glicko2) (s : Glicko2State)
    (r : List (Glicko2State × ℝ × ℝ)) (h1 : e1.tau = e2.tau)
    (h2 : e1.min_rd = e2.min_rd) (h3 : e1.max_rd = e2.max_rd) :
    updatePlayer e1 s r = updatePlayer e2 s r := by
  unfold updatePlayer emptyUpdate
  rw [h1, h2, h3]

/-- Athlete `j` takes part in some rated match of the list; exactly these
athletes can be newly inserted by `ensure_player` during the loop. -/
def touchedP (j : String) (ms : List MatchResult) : Prop :=
  ∃ m ∈ ms, validMatch m ∧ (j = m.top_id ∨ j = m.bottom_id)

instance touchedP.dec (j : String) (ms : List MatchResult) : Decidable (touchedP j ms) := by
  unfold touchedP
  infer_instance

/-- Unfolding `touchedP` on a cons cell. -/
theorem touchedP_cons (j : String) (m : MatchResult) (ms : List MatchResult) :
    touchedP j (m :: ms) ↔
      (validMatch m ∧ (j = m.top_id ∨ j = m.bottom_id)) ∨ touchedP j ms := by
  unfold touchedP
  exact List.exists_mem_cons_iff _ _ _

/-- One match-loop step never changes the value `sod` reads for any id. -/
theorem processMatch_sod (acc : PeriodAcc) (m : MatchResult) (j : String) :
    sod (processMatch acc m).e.states j = sod acc.e.states j := by
  unfold processMatch
  split
  · dsimp only
    rw [(recordWeightClass_fields _ _ _ _).1, (recordWeightClass_fields _ _ _ _).1,
      sod_ensure, sod_ensure]
  · rfl

/-- One match-loop step preserves the engine configuration fields. -/
theorem processMatch_fields (acc : PeriodAcc) (m : MatchResult) :
    (processMatch acc m).e.tau = acc.e.tau ∧
    (processMatch acc m).e.min_rd = acc.e.min_rd ∧
    (processMatch acc m).e.max_rd = acc.e.max_rd ∧
    (processMatch acc m).e.win_type_weights = acc.e.win_type_weights := by
  unfold processMatch
  split
  · dsimp only
    refine ⟨?_, ?_, ?_, ?_⟩
    · rw [(recordWeightClass_fields _ _ _ _).2.1, (recordWeightClass_fields _ _ _ _).2.1,
        (ensure_fields _ _).1, (ensure_fields _ _).1]
    · rw [(recordWeightClass_fields _ _ _ _).2.2.1, (recordWeightClass_fields _ _ _ _).2.2.1,
        (ensure_fields _ _).2.1, (ensure_fields _ _).2.1]
    · rw [(recordWeightClass_fields _ _ _ _).2.2.2.1, (recordWeightClass_fields _ _ _ _).2.2.2.1,
        (ensure_fields _ _).2.2.1, (ensure_fields _ _).2.2.1]
    · rw [(recordWeightClass_fields _ _ _ _).2.2.2.2, (recordWeightClass_fields _ _ _ _).2.2.2.2,
        (ensure_fields _ _).2.2.2, (ensure_fields _ _).2.2.2]
  · exact ⟨rfl, rfl, rfl, rfl⟩

/-- What one match-loop step does to the state dict, as a lookup. -/
theorem processMatch_lookup (acc : PeriodAcc) (m : MatchResult) (j : String) :
    alookup (processMatch acc m).e.states j =
      if validMatch m ∧ (j = m.top_id ∨ j = m.bottom_id) then some (sod acc.e.states j)
      else alookup acc.e.states j := by
  unfold processMatch
  by_cases hv : validMatch m
  · rw [if_pos hv]
    dsimp only
    rw [(recordWeightClass_fields _ _ _ _).1, (recordWeightClass_fields _ _ _ _).1,
      alookup_ensure, sod_ensure, alookup_ensure]
    by_cases hb : j = m.bottom_id
    · rw [if_pos hb, if_pos ⟨hv, Or.inr hb⟩, hb]
    · rw [if_neg hb]
      by_cases ht : j = m.top_id
      · rw [if_pos ht, if_pos ⟨hv, Or.inl ht⟩, ht]
      · rw [if_neg ht, if_neg (fun hh => hh.2.elim ht hb)]
  · rw [if_neg hv, if_neg (fun hh => hv hh.1)]

/-- What one match-loop step appends to `results_by_player[j]`. -/
theorem processMatch_rb (acc : PeriodAcc) (m : MatchResult) (j : String) :
    (processMatch acc m).rb j = acc.rb j ++ entriesFor acc.e acc.e.states m j := by
  unfold processMatch entriesFor
  by_cases hv : validMatch m
  · rw [if_pos hv, if_pos hv]
    dsimp only
    rw [(recordWeightClass_fields _ _ _ _).1, (recordWeightClass_fields _ _ _ _).1]
    simp only [winWeight]
    rw [(recordWeightClass_fields _ _ _ _).2.2.2.2, (recordWeightClass_fields _ _ _ _).2.2.2.2,
      (ensure_fields _ _).2.2.2, (ensure_fields _ _).2.2.2]
    simp only [sod_ensure]
    by_cases hb : j = m.bottom_id <;> by_cases ht : j = m.top_id
    · have hbt : m.bottom_id = m.top_id := hb.symm.trans ht
      simp [hb, ht, hbt, List.append_assoc]
    · have hbt : ¬ (m.bottom_id = m.top_id) := fun hh => ht (hb.trans hh)
      simp [hb, ht, hbt, List.append_assoc]
    · have htb : ¬ (m.top_id = m.bottom_id) := fun hh => hb (ht.trans hh)
      simp [hb, ht, htb, List.append_assoc]
    · simp [hb, ht]
  · rw [if_neg hv, if_neg hv, List.append_nil]

/-- What one match-loop step appends to the prediction list. -/
theorem processMatch_preds (acc : PeriodAcc) (m : MatchResult) :
    (processMatch acc m).preds = acc.preds ++ (predFor acc.e.states m).toList := by
  unfold processMatch predFor
  by_cases hv : validMatch m
  · rw [if_pos hv, if_pos hv]
    dsimp only
    rw [(recordWeightClass_fields _ _ _ _).1, (recordWeightClass_fields _ _ _ _).1]
    simp only [sod_ensure]
    simp
  · rw [if_neg hv, if_neg hv]
    simp

/-- What one match-loop step adds to the head-to-head tally at key `k`. -/
theorem processMatch_h2h (acc : PeriodAcc) (m : MatchResult) (k : String × String) :
    (processMatch acc m).h2h k =
      acc.h2h k + (if validMatch m ∧ k = (winnerOf m, loserOf m) then 1 else 0) := by
  unfold processMatch
  by_cases hv : validMatch m
  · rw [if_pos hv]
    dsimp only
    by_cases hk : k = (winnerOf m, loserOf m)
    · rw [if_pos hk, if_pos ⟨hv, hk⟩]
    · rw [if_neg hk, if_neg (fun hh => hk hh.2), Nat.add_zero]
  · rw [if_neg hv, if_neg (fun hh => hv hh.1), Nat.add_zero]

/-- The whole match loop never changes the value `sod` reads for any id. -/
theorem foldl_processMatch_sod (ms : List MatchResult) (acc : PeriodAcc) (j : String) :
    sod ((ms.foldl processMatch acc).e.states) j = sod acc.e.states j := by
  induction ms generalizing acc with
  | nil => rfl
  | cons m rest ih => rw [List.foldl_cons, ih, processMatch_sod]

/-- The whole match loop preserves the engine configuration fields. -/
theorem foldl_processMatch_fields (ms : List MatchResult) (acc : PeriodAcc) :
    (ms.foldl processMatch acc).e.tau = acc.e.tau ∧
    (ms.foldl processMatch acc).e.min_rd = acc.e.min_rd ∧
    (ms.foldl processMatch acc).e.max_rd = acc.e.max_rd ∧
    (ms.foldl processMatch acc).e.win_type_weights = acc.e.win_type_weights := by
  induction ms generalizing acc with
  | nil => exact ⟨rfl, rfl, rfl, rfl⟩
  | cons m rest ih =>
    rw [List.foldl_cons]
    obtain ⟨h1, h2, h3, h4⟩ := ih (processMatch acc m)
    obtain ⟨g1, g2, g3, g4⟩ := processMatch_fields acc m
    exact ⟨h1.trans g1, h2.trans g2, h3.trans g3, h4.trans g4⟩

/-- Lemma: `entriesFor` only depends on the weight table and the `sod` view. -/
theorem entriesFor_congr (e1 e2 : Glicko2) (sts1 sts2 : List (String × Glicko2State))
    (m : MatchResult) (j : String)
    (hw : e1.win_type_weights = e2.win_type_weights)
    (hs : ∀ i, sod sts1 i = sod sts2 i) :
    entriesFor e1 sts1 m j = entriesFor e2 sts2 m j := by
  unfold entriesFor
  rw [winWeight_congr e1 e2 m.win_type hw]
  simp only [hs]

/-- Lemma: `collectEntries` only depends on the weight table and the `sod` view. -/
theorem collectEntries_congr (e1 e2 : Glicko2) (sts1 sts2 : List (String × Glicko2State))
    (j : String) (ms : List MatchResult)
    (hw : e1.win_type_weights = e2.win_type_weights)
    (hs : ∀ i, sod sts1 i = sod sts2 i) :
    collectEntries e1 sts1 j ms = collectEntries e2 sts2 j ms := by
  induction ms with
  | nil => rfl
  | cons m rest ih =>
    unfold collectEntries
    rw [entriesFor_congr e1 e2 sts1 sts2 m j hw hs, ih]

/-- The `results_by_player[j]` of the match loop, relative to the pre-loop state. -/
theorem foldl_processMatch_rb (ms : List MatchResult) (acc : PeriodAcc) (j : String) :
    (ms.foldl processMatch acc).rb j = acc.rb j ++ collectEntries acc.e acc.e.states j ms := by
  induction ms generalizing acc with
  | nil => simp [collectEntries]
  | cons m rest ih =>
    rw [List.foldl_cons, ih, processMatch_rb,
      collectEntries_congr (processMatch acc m).e acc.e (processMatch acc m).e.states
        acc.e.states j rest (processMatch_fields acc m).2.2.2
        (fun i => processMatch_sod acc m i),
      List.append_assoc]
    rfl

/-- Lemma: `predFor` only depends on the `sod` view. -/
theorem predFor_congr (sts1 sts2 : List (String × Glicko2State)) (m : MatchResult)
    (hs : ∀ i, sod sts1 i = sod sts2 i) :
    predFor sts1 m = predFor sts2 m := by
  unfold predFor
  simp only [hs]

/-- Unfolding `filterMap` on a cons cell, phrased with `Option.toList`. -/
theorem filterMap_cons_toList {α β : Type} (f : α → Option β) (a : α) (l : List α) :
    (a :: l).filterMap f = (f a).toList ++ l.filterMap f := by
  cases h : f a <;> simp [List.filterMap_cons, h]

/-- The prediction list of the match loop, relative to the pre-loop state. -/
theorem foldl_processMatch_preds (ms : List MatchResult) (acc : PeriodAcc) :
    (ms.foldl processMatch acc).preds = acc.preds ++ ms.filterMap (predFor acc.e.states) := by
  induction ms generalizing acc with
  | nil => simp
  | cons m rest ih =>
    rw [List.foldl_cons, ih]
    have hf : predFor (processMatch acc m).e.states = predFor acc.e.states :=
      funext (fun m2 => predFor_congr _ _ m2 (fun i => processMatch_sod acc m i))
    rw [hf, processMatch_preds, filterMap_cons_toList, List.append_assoc]

/-- The head-to-head tally of the match loop at a key, as a count over matches. -/
theorem foldl_processMatch_h2h (ms : List MatchResult) (acc : PeriodAcc)
    (k : String × String) :
    (ms.foldl processMatch acc).h2h k =
      acc.h2h k + ms.countP (fun m => decide (validMatch m ∧ k = (winnerOf m, loserOf m))) := by
  induction ms generalizing acc with
  | nil => simp
  | cons m rest ih =>
    rw [List.foldl_cons, ih, processMatch_h2h, List.countP_cons]
    by_cases hc : validMatch m ∧ k = (winnerOf m, loserOf m)
    · simp [hc]
      omega
    · simp [hc]

/-- The state dict of the match loop, as a lookup relative to the pre-loop state:
existing keys keep their value, participants of rated matches get their
pre-loop state-or-default, everything else is absent iff it was absent. -/
theorem foldl_processMatch_lookup (ms : List MatchResult) (acc : PeriodAcc) (j : String) :
    alookup (ms.foldl processMatch acc).e.states j =
      if touchedP j ms then some (sod acc.e.states j) else alookup acc.e.states j := by
  induction ms generalizing acc with
  | nil =>
    rw [if_neg]
    · rfl
    · intro hh
      obtain ⟨m, hm, _⟩ := hh
      exact absurd hm (List.not_mem_nil m)
  | cons m rest ih =>
    rw [List.foldl_cons, ih, processMatch_sod, processMatch_lookup]
    by_cases htr : touchedP j rest
    · rw [if_pos htr, if_pos ((touchedP_cons j m rest).mpr (Or.inr htr))]
    · rw [if_neg htr]
      by_cases hm : validMatch m ∧ (j = m.top_id ∨ j = m.bottom_id)
      · rw [if_pos hm, if_pos ((touchedP_cons j m rest).mpr (Or.inl hm))]
      · rw [if_neg hm, if_neg (fun hh => ((touchedP_cons j m rest).mp hh).elim hm htr)]

/-- Lookup into the `new_states` dict built by `updateAll`. -/
theorem alookup_updateAll (eng : Glicko2) (rb : String → List (Glicko2State × ℝ × ℝ))
    (l : List (String × Glicko2State)) (k : String) :
    alookup (updateAll eng rb l) k = (alookup l k).map (fun s => updatePlayer eng s (rb k)) := by
  induction l with
  | nil => rfl
  | cons p rest ih =>
    unfold updateAll at ih ⊢
    by_cases h : p.1 = k
    · subst h
      simp [alookup]
    · simp [alookup, h, ih]

/-- Lemma: `process_period` as a per-athlete lookup: untouched absent ids stay
absent; every tracked or newly-ensured id is re-run through `_update_player`
on the result triples it accumulated (computed against pre-period states). -/
theorem processPeriod_lookup (e : Glicko2) (ms : List MatchResult)
    (h2h : String × String → ℕ) (wc : List (String × List (String × ℕ))) (j : String) :
    alookup (processPeriod e ms h2h wc).engine.states j =
      (if touchedP j ms then some (sod e.states j) else alookup e.states j).map
        (fun s => updatePlayer e s (collectEntries e e.states j ms)) := by
  unfold processPeriod
  dsimp only
  rw [alookup_updateAll, foldl_processMatch_lookup, foldl_processMatch_rb]
  dsimp only
  rw [List.nil_append]
  congr 1
  funext s
  exact updatePlayer_congr _ _ s _ (foldl_processMatch_fields ms _).1
    (foldl_processMatch_fields ms _).2.1 (foldl_processMatch_fields ms _).2.2.1

/-- The prediction list `process_period` returns. -/
theorem processPeriod_preds (e : Glicko2) (ms : List MatchResult)
    (h2h : String × String → ℕ) (wc : List (String × List (String × ℕ))) :
    (processPeriod e ms h2h wc).predictions = ms.filterMap (predFor e.states) := by
  unfold processPeriod
  dsimp only
  rw [foldl_processMatch_preds]
  dsimp only
  rw [List.nil_append]

/-- The head-to-head tally after `process_period`. -/
theorem processPeriod_h2h (e : Glicko2) (ms : List MatchResult)
    (h2h : String × String → ℕ) (wc : List (String × List (String × ℕ)))
    (k : String × String) :
    (processPeriod e ms h2h wc).h2h k =
      h2h k + ms.countP (fun m => decide (validMatch m ∧ k = (winnerOf m, loserOf m))) := by
  unfold processPeriod
  dsimp only
  rw [foldl_processMatch_h2h]

/-- Lemma: `process_period` preserves the engine configuration fields. -/
theorem processPeriod_fields (e : Glicko2) (ms : List MatchResult)
    (h2h : String × String → ℕ) (wc : List (String × List (String × ℕ))) :
    (processPeriod e ms h2h wc).engine.tau = e.tau ∧
    (processPeriod e ms h2h wc).engine.min_rd = e.min_rd ∧
    (processPeriod e ms h2h wc).engine.max_rd = e.max_rd ∧
    (processPeriod e ms h2h wc).engine.win_type_weights = e.win_type_weights := by
  unfold processPeriod
  dsimp only
  exact foldl_processMatch_fields ms _

/-- Lemma: `_update_player` with no results is exactly the no-result branch. -/
theorem updatePlayer_nil (e : Glicko2) (s : Glicko2State) :
    updatePlayer e s [] = emptyUpdate e s := by
  unfold updatePlayer
  simp

/-- No list of matches touches anybody when it is empty. -/
theorem touchedP_nil (j : String) : ¬ touchedP j [] := by
  rintro ⟨m, hm, _⟩
  exact absurd hm (List.not_mem_nil m)

/-- C2 (amended): `process_period` on an empty match list returns an empty
prediction list, leaves the head-to-head tally unchanged, and maps every
tracked athlete through the no-result branch of `_update_player`: rating and
sigma are unchanged, but RD is *widened* inside `process_period` itself by
the pre-period volatility step `phi* = sqrt(phi^2 + sigma^2)` (clamped to
bounds, hence never decreased for any in-range RD) - contrary to the claim
that RD widening happens only in a separate `inflate_for_gap` call. -/
theorem c2_amended_process_empty (e : Glicko2) (h2h : String × String → ℕ)
    (wc : List (String × List (String × ℕ)))
    (hmin : e.min_rd = 30) (hmax : e.max_rd = 350) :
    (processPeriod e [] h2h wc).predictions = [] ∧
    (∀ k, (processPeriod e [] h2h wc).h2h k = h2h k) ∧
    (∀ j, alookup (processPeriod e [] h2h wc).engine.states j
        = (alookup e.states j).map (fun s => emptyUpdate e s)) ∧
    (∀ s : Glicko2State, (emptyUpdate e s).rating = s.rating ∧
      (emptyUpdate e s).sigma = s.sigma) ∧
    (∀ s : Glicko2State, 30 ≤ s.rd → s.rd ≤ 350 → s.rd ≤ (emptyUpdate e s).rd) := by
  refine ⟨?_, ?_, ?_, ?_, ?_⟩
  · rw [processPeriod_preds]
    rfl
  · intro k
    rw [processPeriod_h2h]
    rfl
  · intro j
    rw [processPeriod_lookup, if_neg (touchedP_nil j)]
    have hup : (fun s => updatePlayer e s (collectEntries e e.states j []))
        = (fun s => emptyUpdate e s) := funext fun s => updatePlayer_nil e s
    rw [hup]
  · intro s
    exact ⟨rfl, rfl⟩
  · intro s h30 h350
    unfold emptyUpdate
    dsimp only
    rw [hmin, hmax]
    have hS : (0:ℝ) < SCALE := by unfold SCALE; norm_num
    have hrd : (0:ℝ) ≤ s.rd / SCALE := by positivity
    have hsq : Real.sqrt (s.rd / SCALE * (s.rd / SCALE)) = s.rd / SCALE :=
      Real.sqrt_mul_self hrd
    have hmono : s.rd / SCALE ≤ Real.sqrt (s.rd / SCALE * (s.rd / SCALE) + s.sigma * s.sigma) := by
      rw [← hsq]
      exact Real.sqrt_le_sqrt (by nlinarith [mul_self_nonneg s.sigma])
    have hx : s.rd ≤ Real.sqrt (s.rd / SCALE * (s.rd / SCALE) + s.sigma * s.sigma) * SCALE := by
      calc s.rd = s.rd / SCALE * SCALE := by field_simp
      _ ≤ Real.sqrt (s.rd / SCALE * (s.rd / SCALE) + s.sigma * s.sigma) * SCALE :=
        mul_le_mul_of_nonneg_right hmono (le_of_lt hS)
    exact le_min h350 (le_trans hx (le_max_right 30 _))

/-- The engine of the C2 counterexample: default configuration with one
tracked athlete at rating 1500, RD 100, sigma 0.06. -/
noncomputable def eC2 : Glicko2 :=
  { glicko2Init 0.5 150 with states := [("a", ⟨1500, 100, 0.06⟩)] }

/-- C2 counterexample: running `process_period` with *zero* matches changes
the RD of athlete "a" (it grows from 100 to sqrt(100^2 + (0.06 * SCALE)^2), about
100.5), while rating and sigma stay put.  So RD does widen inside
`process_period` itself, refuting the claim as stated. -/
theorem c2_counterexample :
    (sod (processPeriod eC2 [] (fun _ => 0) []).engine.states "a").rating = 1500 ∧
    (sod (processPeriod eC2 [] (fun _ => 0) []).engine.states "a").sigma = 0.06 ∧
    100 < (sod (processPeriod eC2 [] (fun _ => 0) []).engine.states "a").rd := by
  have hlook : alookup (processPeriod eC2 [] (fun _ => 0) []).engine.states "a"
      = some (emptyUpdate eC2 ⟨1500, 100, 0.06⟩) := by
    rw [processPeriod_lookup, if_neg (touchedP_nil "a")]
    have hst : alookup eC2.states "a" = some ⟨1500, 100, 0.06⟩ := by
      simp [eC2, alookup]
    rw [hst]
    simp [collectEntries, updatePlayer_nil]
  have hsod : sod (processPeriod eC2 [] (fun _ => 0) []).engine.states "a"
      = emptyUpdate eC2 ⟨1500, 100, 0.06⟩ := by
    unfold sod
    rw [hlook]
    rfl
  rw [hsod]
  unfold emptyUpdate
  dsimp only
  refine ⟨rfl, rfl, ?_⟩
  have hS : (0:ℝ) < SCALE := by unfold SCALE; norm_num
  have hmax : eC2.max_rd = 350 := by
    show MAX_RD = 350
    unfold MAX_RD
    norm_num
  have hmin : eC2.min_rd = 30 := by
    show MIN_RD = 30
    unfold MIN_RD
    norm_num
  rw [hmax, hmin]
  have h1 : (100:ℝ) < Real.sqrt (100 / SCALE * (100 / SCALE) + 0.06 * 0.06) * SCALE := by
    have h2 : (100 / SCALE : ℝ) < Real.sqrt (100 / SCALE * (100 / SCALE) + 0.06 * 0.06) := by
      rw [show (100 / SCALE * (100 / SCALE) + 0.06 * 0.06 : ℝ)
          = (100 / SCALE) ^ 2 + 0.06 * 0.06 by ring]
      apply (Real.lt_sqrt (by positivity)).mpr
      norm_num
    calc (100:ℝ) = 100 / SCALE * SCALE := by field_simp
    _ < Real.sqrt (100 / SCALE * (100 / SCALE) + 0.06 * 0.06) * SCALE :=
      mul_lt_mul_of_pos_right h2 hS
  have h350 : Real.sqrt (100 / SCALE * (100 / SCALE) + 0.06 * 0.06) * SCALE < 350 := by
    have h3 : Real.sqrt (100 / SCALE * (100 / SCALE) + 0.06 * 0.06) < 350 / SCALE := by
      apply (Real.sqrt_lt' (by positivity)).mpr
      unfold SCALE
      norm_num
    calc Real.sqrt (100 / SCALE * (100 / SCALE) + 0.06 * 0.06) * SCALE
        < 350 / SCALE * SCALE := mul_lt_mul_of_pos_right h3 hS
    _ = 350 := by field_simp
  rw [max_eq_right (by linarith), min_eq_right (by linarith)]
  exact h1

/-- Witness for the amended theorem of C2 on a default-configured engine. -/
theorem c2_witness :
    (processPeriod (glicko2Init 0.5 150) [] (fun _ => 0) []).predictions = [] ∧
    (∀ k, (processPeriod (glicko2Init 0.5 150) [] (fun _ => 0) []).h2h k = (fun _ => 0) k) ∧
    (∀ j, alookup (processPeriod (glicko2Init 0.5 150) [] (fun _ => 0) []).engine.states j
        = (alookup (glicko2Init 0.5 150).states j).map
            (fun s => emptyUpdate (glicko2Init 0.5 150) s)) ∧
    (∀ s : Glicko2State, (emptyUpdate (glicko2Init 0.5 150) s).rating = s.rating ∧
      (emptyUpdate (glicko2Init 0.5 150) s).sigma = s.sigma) ∧
    (∀ s : Glicko2State, 30 ≤ s.rd → s.rd ≤ 350 →
      s.rd ≤ (emptyUpdate (glicko2Init 0.5 150) s).rd) :=
  c2_amended_process_empty (glicko2Init 0.5 150) (fun _ => 0) []
    (by show MIN_RD = 30; unfold MIN_RD; norm_num)
    (by show MAX_RD = 350; unfold MAX_RD; norm_num)

/-- Lemma: `_update_player` reads its result list only through the two sums `v_inv`
and `delta_sum` and the emptiness test, so any reordering of the list yields
the same new state. -/
theorem updatePlayer_perm (e : Glicko2) (s : Glicko2State)
    (r1 r2 : List (Glicko2State × ℝ × ℝ)) (hp : r1.Perm r2) :
    updatePlayer e s r1 = updatePlayer e s r2 := by
  by_cases h1 : r1.isEmpty
  · have h2 : r2.isEmpty = true := by
      rw [List.isEmpty_iff] at h1 ⊢
      subst h1
      exact hp.symm.eq_nil
    unfold updatePlayer
    rw [if_pos h1, if_pos h2]
  · have h2 : ¬ (r2.isEmpty = true) := by
      intro hh
      rw [List.isEmpty_iff] at hh h1
      subst hh
      exact h1 hp.eq_nil
    have hvi : vInv ((s.rating - DEFAULT_RATING) / SCALE) r1
        = vInv ((s.rating - DEFAULT_RATING) / SCALE) r2 := by
      unfold vInv
      exact (hp.map _).sum_eq
    have hds : deltaSum ((s.rating - DEFAULT_RATING) / SCALE) r1
        = deltaSum ((s.rating - DEFAULT_RATING) / SCALE) r2 := by
      unfold deltaSum
      exact (hp.map _).sum_eq
    unfold updatePlayer
    dsimp only
    simp only [hvi, hds]
    rw [if_neg h1, if_neg h2]

/-- A permutation of the matches permutes the result triples of each athlete. -/
theorem collectEntries_perm (e : Glicko2) (sts : List (String × Glicko2State))
    (j : String) (ms1 ms2 : List MatchResult) (hp : ms1.Perm ms2) :
    (collectEntries e sts j ms1).Perm (collectEntries e sts j ms2) := by
  induction hp with
  | nil => exact List.Perm.refl _
  | cons m p ih =>
    unfold collectEntries
    exact List.Perm.append_left _ ih
  | swap x y l =>
    simp only [collectEntries]
    have h1 : entriesFor e sts y j ++ (entriesFor e sts x j ++ collectEntries e sts j l)
        = (entriesFor e sts y j ++ entriesFor e sts x j) ++ collectEntries e sts j l :=
      (List.append_assoc _ _ _).symm
    have h3 : (entriesFor e sts x j ++ entriesFor e sts y j) ++ collectEntries e sts j l
        = entriesFor e sts x j ++ (entriesFor e sts y j ++ collectEntries e sts j l) :=
      List.append_assoc _ _ _
    rw [h1, ← h3]
    exact List.Perm.append_right _ List.perm_append_comm
  | trans p1 p2 ih1 ih2 => exact ih1.trans ih2

/-- C5: within a period, reordering the matches leaves the final per-athlete
state and the whole head-to-head tally unchanged, and permutes only the
returned prediction list - opponent states are read from the pre-period
snapshot before any new state is committed, and the per-player update
consumes its results only through order-insensitive sums. -/
theorem c5_period_order_independence (e : Glicko2) (ms1 ms2 : List MatchResult)
    (h2h : String × String → ℕ) (wc : List (String × List (String × ℕ)))
    (hp : ms1.Perm ms2) :
    (∀ j, alookup (processPeriod e ms1 h2h wc).engine.states j
        = alookup (processPeriod e ms2 h2h wc).engine.states j) ∧
    (∀ k, (processPeriod e ms1 h2h wc).h2h k = (processPeriod e ms2 h2h wc).h2h k) ∧
    ((processPeriod e ms1 h2h wc).predictions).Perm
      ((processPeriod e ms2 h2h wc).predictions) := by
  refine ⟨?_, ?_, ?_⟩
  · intro j
    rw [processPeriod_lookup, processPeriod_lookup]
    have htc : touchedP j ms1 ↔ touchedP j ms2 := by
      unfold touchedP
      constructor
      · rintro ⟨m, hm, hrest⟩
        exact ⟨m, hp.mem_iff.mp hm, hrest⟩
      · rintro ⟨m, hm, hrest⟩
        exact ⟨m, hp.mem_iff.mpr hm, hrest⟩
    have hup : (fun s => updatePlayer e s (collectEntries e e.states j ms1))
        = (fun s => updatePlayer e s (collectEntries e e.states j ms2)) :=
      funext fun s => updatePlayer_perm e s _ _ (collectEntries_perm e e.states j ms1 ms2 hp)
    rw [hup]
    by_cases ht : touchedP j ms1
    · rw [if_pos ht, if_pos (htc.mp ht)]
    · rw [if_neg ht, if_neg (fun hh => ht (htc.mpr hh))]
  · intro k
    rw [processPeriod_h2h, processPeriod_h2h, hp.countP_eq]
  · rw [processPeriod_preds, processPeriod_preds]
    exact hp.filterMap _

/-- First concrete match for the C5 witness. -/
noncomputable def mW1 : MatchResult := ⟨"m1", 0, "a", "b", some "a", some "F", some "106"⟩

/-- Second concrete match for the C5 witness. -/
noncomputable def mW2 : MatchResult := ⟨"m2", 1, "a", "c", some "c", none, none⟩

/-- Witness for C5 on a concrete two-match period and its swap. -/
theorem c5_witness :
    (∀ j, alookup (processPeriod (glicko2Init 0.5 150) [mW1, mW2] (fun _ => 0) []).engine.states j
        = alookup (processPeriod (glicko2Init 0.5 150) [mW2, mW1] (fun _ => 0) []).engine.states j) ∧
    (∀ k, (processPeriod (glicko2Init 0.5 150) [mW1, mW2] (fun _ => 0) []).h2h k
        = (processPeriod (glicko2Init 0.5 150) [mW2, mW1] (fun _ => 0) []).h2h k) ∧
    ((processPeriod (glicko2Init 0.5 150) [mW1, mW2] (fun _ => 0) []).predictions).Perm
      ((processPeriod (glicko2Init 0.5 150) [mW2, mW1] (fun _ => 0) []).predictions) :=
  c5_period_order_independence (glicko2Init 0.5 150) [mW1, mW2] [mW2, mW1]
    (fun _ => 0) [] (List.Perm.swap mW2 mW1 [])

/-- Lookup after `mapStates`. -/
theorem alookup_mapStates (f : Glicko2State → Glicko2State)
    (l : List (String × Glicko2State)) (k : String) :
    alookup (mapStates f l) k = (alookup l k).map f := by
  induction l with
  | nil => rfl
  | cons p rest ih =>
    unfold mapStates at ih ⊢
    by_cases h : p.1 = k
    · subst h
      simp [alookup]
    · simp [alookup, h, ih]

/-- ratings.py lines 278-283: `months_between` with datetimes as real-valued
timestamps in seconds (`total_seconds() / 86400 / 30`). -/
noncomputable def monthsBetween (first second : ℝ) : ℝ :=
  if second ≤ first then 0 else (second - first) / 86400 / 30

/-- ratings.py lines 79-84: dataclass `RatingRunResult`. -/
structure RatingRunResult where
  ratings : List (String × Glicko2State)
  head_to_head : String × String → ℕ
  weight_counts : List (String × List (String × ℕ))
  predictions : List (ℝ × ℝ)

/-- The loop state of `run_simulation` (lines 354-367): engine, accumulators,
and the `prev_end` / `prev_season` trackers. -/
structure RunAcc where
  e : Glicko2
  h2h : String × String → ℕ
  wc : List (String × List (String × ℕ))
  preds : List (ℝ × ℝ)
  prev_end : Option ℝ
  prev_season : Option String

/-- ratings.py lines 360-367: one iteration of the period loop - inflate for
the gap since the end of the previous period (skipped on the first period), reset
RD at a season change when a floor is configured (updating `prev_season` only
then, as in the source), then process the period matches. -/
noncomputable def runStep (floorOpt : Option ℝ) (acc : RunAcc)
    (pm : RatingPeriod × List MatchResult) : RunAcc :=
  let e1 := match acc.prev_end with
    | none => acc.e
    | some pe => inflateForGap acc.e (monthsBetween pe pm.1.start)
  let e2 := if floorOpt.isSome ∧ acc.prev_season ≠ some pm.1.season
    then resetRdForSeason e1 else e1
  let ps2 := if floorOpt.isSome ∧ acc.prev_season ≠ some pm.1.season
    then some pm.1.season else acc.prev_season
  let r := processPeriod e2 pm.2 acc.h2h acc.wc
  ⟨r.engine, r.h2h, r.wc, acc.preds ++ r.predictions, some pm.1.endT, ps2⟩

/-- ratings.py lines 343-374: `run_simulation`.  The engine floor argument is
`season_rd_floor or SEASON_RD_FLOOR`: the Python `or` replaces both `None` and
the falsy `0.0` by the default 150.  `zip` truncates to the shorter of the
two period/bucket lists, as in Python. -/
noncomputable def runSimulation (periods : List RatingPeriod)
    (matchesByPeriod : List (List MatchResult)) (wrestlers : List String)
    (tau : ℝ) (season_rd_floor : Option ℝ) : RatingRunResult :=
  let e0 := glicko2Init tau (match season_rd_floor with
    | none => SEASON_RD_FLOOR
    | some x => if x = 0 then SEASON_RD_FLOOR else x)
  let e1 := wrestlers.foldl ensurePlayer e0
  let acc := (periods.zip matchesByPeriod).foldl (runStep season_rd_floor)
    ⟨e1, fun _ => 0, [], [], none, none⟩
  ⟨acc.e.states, acc.h2h, acc.wc, acc.preds⟩

/-- ratings.py lines 377-382: `evaluate_predictions` - `(0, 0)` on an empty
list, otherwise the Brier score and the fraction of side-correct calls
(Python sums booleans as 0/1 integers). -/
noncomputable def evaluatePredictions (predictions : List (ℝ × ℝ)) : ℝ × ℝ :=
  if predictions.isEmpty then (0, 0)
  else ((predictions.map (fun pa => (pa.1 - pa.2) ^ 2)).sum / predictions.length,
    (predictions.map (fun pa =>
      if (0.5 ≤ pa.1 ∧ pa.2 = 1.0) ∨ (pa.1 < 0.5 ∧ pa.2 = 0.0) then (1:ℝ) else 0)).sum
      / predictions.length)

/-- The `(brier, accuracy)` pair of the run of one candidate in `tune_tau` (line
395 calls `run_simulation` with its default `season_rd_floor`, i.e. 150). -/
noncomputable def tauMetrics (periods : List RatingPeriod)
    (matchesByPeriod : List (List MatchResult)) (wrestlers : List String) (t : ℝ) : ℝ × ℝ :=
  evaluatePredictions
    (runSimulation periods matchesByPeriod wrestlers t (some SEASON_RD_FLOOR)).predictions

/-- ratings.py lines 385-401: `tune_tau`.  The source seeds `best_metric`
with `(float("inf"), 0.0)`, so the first candidate is always adopted on the
first loop iteration (every Brier score is a finite real); the embedding
realizes the same semantics by seeding the fold with the first candidate and
its metrics.  An empty candidate list raises `IndexError` in Python
(`candidates[0]`), embedded as `none`. -/
noncomputable def tuneTau (periods : List RatingPeriod)
    (matchesByPeriod : List (List MatchResult)) (wrestlers : List String)
    (candidates : List ℝ) : Option (ℝ × (ℝ × ℝ)) :=
  match candidates with
  | [] => none
  | c :: rest =>
    some (rest.foldl (fun best t =>
      if (tauMetrics periods matchesByPeriod wrestlers t).1 < best.2.1
      then (t, tauMetrics periods matchesByPeriod wrestlers t) else best)
      (c, tauMetrics periods matchesByPeriod wrestlers c))

/-- The clamp `min(350, max(30, x))` always lands in `[30, 350]`. -/
theorem clamp_mem (x : ℝ) :
    30 ≤ min (350:ℝ) (max 30 x) ∧ min (350:ℝ) (max 30 x) ≤ 350 :=
  ⟨le_min (by norm_num) (le_max_left 30 x), min_le_left _ _⟩

/-- Every branch of `_update_player` clamps the returned RD to the bounds. -/
theorem updatePlayer_rd_mem (e : Glicko2) (s : Glicko2State)
    (r : List (Glicko2State × ℝ × ℝ)) (hmin : e.min_rd = 30) (hmax : e.max_rd = 350) :
    30 ≤ (updatePlayer e s r).rd ∧ (updatePlayer e s r).rd ≤ 350 := by
  unfold updatePlayer emptyUpdate
  dsimp only
  rw [hmin, hmax]
  split
  · exact clamp_mem _
  · split
    · exact clamp_mem _
    · exact clamp_mem _

/-- A sequence of engine operations for the RD-range invariant: each
constructor is one public mutator of the `Glicko2` class (`process_period`
with some match list and accumulators, `inflate_for_gap`,
`reset_rd_for_season`). -/
inductive EngineOp where
  | process (ms : List MatchResult)
  | inflate (months : ℝ)
  | resetSeason

/-- Apply one operation to the engine together with the two caller-owned
accumulators that `process_period` threads through. -/
noncomputable def applyOp
    (x : Glicko2 × (String × String → ℕ) × List (String × List (String × ℕ)))
    (op : EngineOp) :
    Glicko2 × (String × String → ℕ) × List (String × List (String × ℕ)) :=
  match op with
  | .process ms =>
    let r := processPeriod x.1 ms x.2.1 x.2.2
    (r.engine, r.h2h, r.wc)
  | .inflate months => (inflateForGap x.1 months, x.2)
  | .resetSeason => (resetRdForSeason x.1, x.2)

/-- The RD-range invariant for a tracked state dict. -/
def RdInRange (e : Glicko2) : Prop :=
  ∀ p ∈ e.states, 30 ≤ p.2.rd ∧ p.2.rd ≤ 350

/-- Lemma: `inflate_for_gap` keeps configuration and the RD range. -/
theorem inflate_rd (e : Glicko2) (months : ℝ)
    (hmin : e.min_rd = 30) (hmax : e.max_rd = 350) (hr : RdInRange e) :
    RdInRange (inflateForGap e months) ∧
    (inflateForGap e months).min_rd = 30 ∧ (inflateForGap e months).max_rd = 350 := by
  unfold inflateForGap
  split
  · exact ⟨hr, hmin, hmax⟩
  · refine ⟨?_, hmin, hmax⟩
    intro p hp
    obtain ⟨q, _, rfl⟩ := List.mem_map.mp hp
    unfold inflateState
    dsimp only
    rw [hmin, hmax]
    exact clamp_mem _

/-- Lemma: `reset_rd_for_season` keeps configuration and the RD range. -/
theorem reset_rd (e : Glicko2)
    (hmin : e.min_rd = 30) (hmax : e.max_rd = 350) (hr : RdInRange e) :
    RdInRange (resetRdForSeason e) ∧
    (resetRdForSeason e).min_rd = 30 ∧ (resetRdForSeason e).max_rd = 350 := by
  unfold resetRdForSeason
  refine ⟨?_, hmin, hmax⟩
  intro p hp
  obtain ⟨q, hq, rfl⟩ := List.mem_map.mp hp
  dsimp only
  rw [hmax]
  constructor
  · exact le_min (by norm_num) (le_trans (hr q hq).1 (le_max_left _ _))
  · exact min_le_left _ _

/-- Lemma: `process_period` keeps configuration and the RD range (every new state
comes out of `_update_player`, which clamps). -/
theorem process_rd (e : Glicko2) (ms : List MatchResult) (h2h : String × String → ℕ)
    (wc : List (String × List (String × ℕ)))
    (hmin : e.min_rd = 30) (hmax : e.max_rd = 350) :
    RdInRange (processPeriod e ms h2h wc).engine ∧
    (processPeriod e ms h2h wc).engine.min_rd = 30 ∧
    (processPeriod e ms h2h wc).engine.max_rd = 350 := by
  obtain ⟨-, hf2, hf3, -⟩ := processPeriod_fields e ms h2h wc
  refine ⟨?_, hf2.trans hmin, hf3.trans hmax⟩
  intro p hp
  have hacc := foldl_processMatch_fields ms ⟨e, fun _ => [], [], h2h, wc⟩
  unfold processPeriod at hp
  dsimp only at hp
  unfold updateAll at hp
  obtain ⟨q, _, rfl⟩ := List.mem_map.mp hp
  exact updatePlayer_rd_mem _ _ _ (hacc.2.1.trans hmin) (hacc.2.2.1.trans hmax)

/-- C4: starting from any in-range state dict (the default state included, RD
350), after any sequence of `process_period`, `inflate_for_gap` and
`reset_rd_for_season` operations on an engine built with the default bounds
(as `run_simulation` builds it), the RD of every tracked athlete lies in
`[30, 350]` - each mutator either preserves RDs or clamps them to
`[min_rd, max_rd]`. -/
theorem c4_rd_in_range (tau floor : ℝ) (sts0 : List (String × Glicko2State))
    (h2h0 : String × String → ℕ) (wc0 : List (String × List (String × ℕ)))
    (ops : List EngineOp)
    (h0 : ∀ p ∈ sts0, 30 ≤ p.2.rd ∧ p.2.rd ≤ 350) :
    RdInRange (ops.foldl applyOp ({ glicko2Init tau floor with states := sts0 }, h2h0, wc0)).1 := by
  have hmin0 : ({ glicko2Init tau floor with states := sts0 } : Glicko2).min_rd = 30 := by
    show MIN_RD = 30
    unfold MIN_RD
    norm_num
  have hmax0 : ({ glicko2Init tau floor with states := sts0 } : Glicko2).max_rd = 350 := by
    show MAX_RD = 350
    unfold MAX_RD
    norm_num
  have hgen : ∀ (ops : List EngineOp)
      (x : Glicko2 × (String × String → ℕ) × List (String × List (String × ℕ))),
      x.1.min_rd = 30 → x.1.max_rd = 350 → RdInRange x.1 →
      RdInRange (ops.foldl applyOp x).1 := by
    intro ops
    induction ops with
    | nil => intro x _ _ hr; exact hr
    | cons op rest ih =>
      intro x hmin hmax hr
      rw [List.foldl_cons]
      cases op with
      | process ms =>
        obtain ⟨h1, h2, h3⟩ := process_rd x.1 ms x.2.1 x.2.2 hmin hmax
        exact ih _ h2 h3 h1
      | inflate months =>
        obtain ⟨h1, h2, h3⟩ := inflate_rd x.1 months hmin hmax hr
        exact ih _ h2 h3 h1
      | resetSeason =>
        obtain ⟨h1, h2, h3⟩ := reset_rd x.1 hmin hmax hr
        exact ih _ h2 h3 h1
  exact hgen ops _ hmin0 hmax0 h0

/-- Witness for C4 on a concrete engine with one default athlete and a short
operation sequence. -/
theorem c4_witness :
    RdInRange ([EngineOp.inflate 6, EngineOp.resetSeason, EngineOp.process []].foldl applyOp
      ({ glicko2Init 0.5 150 with states := [("a", defaultState)] }, fun _ => 0, [])).1 :=
  c4_rd_in_range 0.5 150 [("a", defaultState)] (fun _ => 0) []
    [EngineOp.inflate 6, EngineOp.resetSeason, EngineOp.process []]
    (by
      intro p hp
      simp only [List.mem_singleton] at hp
      subst hp
      show 30 ≤ DEFAULT_RD ∧ DEFAULT_RD ≤ 350
      unfold DEFAULT_RD
      norm_num)

/-- Lemma: the initial `ensure_player` loop, as a lookup. -/
theorem foldl_ensure_lookup (l : List String) (e : Glicko2) (j : String) :
    alookup ((l.foldl ensurePlayer e).states) j
      = if j ∈ l then some (sod e.states j) else alookup e.states j := by
  induction l generalizing e with
  | nil => simp
  | cons x rest ih =>
    rw [List.foldl_cons, ih, sod_ensure]
    by_cases hm : j ∈ rest
    · rw [if_pos hm, if_pos (List.mem_cons_of_mem x hm)]
    · rw [if_neg hm, alookup_ensure]
      by_cases hx : j = x
      · rw [if_pos hx, if_pos (hx ▸ List.mem_cons_self x rest), hx]
      · rw [if_neg hx, if_neg (fun hh => (List.mem_cons.mp hh).elim hx hm)]

/-- The `ensure_player` loop preserves configuration fields. -/
theorem foldl_ensure_fields (l : List String) (e : Glicko2) :
    (l.foldl ensurePlayer e).tau = e.tau ∧ (l.foldl ensurePlayer e).min_rd = e.min_rd ∧
    (l.foldl ensurePlayer e).max_rd = e.max_rd := by
  induction l generalizing e with
  | nil => exact ⟨rfl, rfl, rfl⟩
  | cons x rest ih =>
    rw [List.foldl_cons]
    obtain ⟨h1, h2, h3⟩ := ih (ensurePlayer e x)
    obtain ⟨g1, g2, g3, -⟩ := ensure_fields e x
    exact ⟨h1.trans g1, h2.trans g2, h3.trans g3⟩

/-- Adding any nonnegative uncertainty before the square root can only grow
`rd` (the computation `sqrt((rd/SCALE)^2 + extra) * SCALE`). -/
theorem rd_le_sqrt_scale (rd extra : ℝ) (hrd : 0 ≤ rd) (hextra : 0 ≤ extra) :
    rd ≤ Real.sqrt (rd / SCALE * (rd / SCALE) + extra) * SCALE := by
  have hS : (0:ℝ) < SCALE := by unfold SCALE; norm_num
  have hq : (0:ℝ) ≤ rd / SCALE := by positivity
  have hsq : Real.sqrt (rd / SCALE * (rd / SCALE)) = rd / SCALE := Real.sqrt_mul_self hq
  have hmono : rd / SCALE ≤ Real.sqrt (rd / SCALE * (rd / SCALE) + extra) := by
    have h1 : Real.sqrt (rd / SCALE * (rd / SCALE))
        ≤ Real.sqrt (rd / SCALE * (rd / SCALE) + extra) :=
      Real.sqrt_le_sqrt (by linarith)
    rw [hsq] at h1
    exact h1
  calc rd = rd / SCALE * SCALE := by field_simp
  _ ≤ Real.sqrt (rd / SCALE * (rd / SCALE) + extra) * SCALE :=
    mul_le_mul_of_nonneg_right hmono (le_of_lt hS)

/-- The default RD as a plain numeral. -/
theorem defaultState_rd : defaultState.rd = 350 := by
  show DEFAULT_RD = 350
  unfold DEFAULT_RD
  norm_num

/-- The default sigma is nonnegative. -/
theorem defaultState_sigma_nonneg : 0 ≤ defaultState.sigma := by
  show (0:ℝ) ≤ DEFAULT_SIGMA
  unfold DEFAULT_SIGMA
  norm_num

/-- The clamp maps anything at or above the cap to the cap. -/
theorem clamp_at_max (x : ℝ) (hx : 350 ≤ x) : min (350:ℝ) (max 30 x) = 350 := by
  rw [max_eq_right (by linarith), min_eq_left hx]

/-- The no-result update fixes the default state (its RD is already at the
cap, so the pre-period widening is clamped away). -/
theorem emptyUpdate_default (e : Glicko2) (hmin : e.min_rd = 30) (hmax : e.max_rd = 350) :
    emptyUpdate e defaultState = defaultState := by
  unfold emptyUpdate
  dsimp only
  rw [hmin, hmax]
  have hx : (350:ℝ) ≤ Real.sqrt (defaultState.rd / SCALE * (defaultState.rd / SCALE)
      + defaultState.sigma * defaultState.sigma) * SCALE :=
    le_trans (le_of_eq defaultState_rd.symm)
      (rd_le_sqrt_scale defaultState.rd (defaultState.sigma * defaultState.sigma)
        (by rw [defaultState_rd]; norm_num) (mul_self_nonneg _))
  rw [clamp_at_max _ hx, defaultState_rd.symm]

/-- Lemma: the per-state step of `inflate_for_gap` fixes the default state. -/
theorem inflateState_default (e : Glicko2) (mo : ℝ)
    (hmin : e.min_rd = 30) (hmax : e.max_rd = 350) (hmo : 0 ≤ mo) :
    inflateState e mo defaultState = defaultState := by
  unfold inflateState
  dsimp only
  rw [hmin, hmax]
  have hx : (350:ℝ) ≤ Real.sqrt (defaultState.rd / SCALE * (defaultState.rd / SCALE)
      + mo * defaultState.sigma * defaultState.sigma) * SCALE :=
    le_trans (le_of_eq defaultState_rd.symm)
      (rd_le_sqrt_scale defaultState.rd (mo * defaultState.sigma * defaultState.sigma)
        (by rw [defaultState_rd]; norm_num)
        (mul_nonneg (mul_nonneg hmo defaultState_sigma_nonneg) defaultState_sigma_nonneg))
  rw [clamp_at_max _ hx, defaultState_rd.symm]

/-- Lemma: `inflate_for_gap` keeps a default-state athlete at the default state. -/
theorem inflate_keeps_default (e : Glicko2) (mo : ℝ) (w : String)
    (hmin : e.min_rd = 30) (hmax : e.max_rd = 350)
    (hw : alookup e.states w = some defaultState) :
    alookup (inflateForGap e mo).states w = some defaultState ∧
    (inflateForGap e mo).min_rd = 30 ∧ (inflateForGap e mo).max_rd = 350 := by
  unfold inflateForGap
  by_cases hms : mo ≤ 0
  · rw [if_pos hms]
    exact ⟨hw, hmin, hmax⟩
  · rw [if_neg hms]
    refine ⟨?_, hmin, hmax⟩
    show alookup (mapStates (inflateState e mo) e.states) w = some defaultState
    rw [alookup_mapStates, hw]
    simp [inflateState_default e mo hmin hmax (le_of_lt (lt_of_not_le hms))]

/-- Lemma: `reset_rd_for_season` keeps a default-state athlete at the default
state: the floor is at most `max_rd` and the default RD is already there. -/
theorem reset_keeps_default (e : Glicko2) (w : String)
    (hmin : e.min_rd = 30) (hmax : e.max_rd = 350)
    (hw : alookup e.states w = some defaultState) :
    alookup (resetRdForSeason e).states w = some defaultState ∧
    (resetRdForSeason e).min_rd = 30 ∧ (resetRdForSeason e).max_rd = 350 := by
  unfold resetRdForSeason
  refine ⟨?_, hmin, hmax⟩
  dsimp only
  rw [alookup_mapStates, hw]
  have hfloor : max e.min_rd (min e.max_rd e.season_rd_floor) ≤ 350 := by
    rw [hmin, hmax]
    exact max_le (by norm_num) (min_le_left _ _)
  have h1 : max defaultState.rd (max e.min_rd (min e.max_rd e.season_rd_floor))
      = defaultState.rd := by
    apply max_eq_left
    rw [defaultState_rd]
    exact hfloor
  have h2 : min e.max_rd defaultState.rd = defaultState.rd := by
    rw [hmax, defaultState_rd]
    norm_num
  dsimp only [Option.map]
  rw [h1, h2]

/-- An athlete appearing in no match of the list accumulates no results. -/
theorem collectEntries_nil_of_absent (e : Glicko2) (sts : List (String × Glicko2State))
    (w : String) (ms : List MatchResult)
    (hnm : ∀ m ∈ ms, m.top_id ≠ w ∧ m.bottom_id ≠ w) :
    collectEntries e sts w ms = [] := by
  induction ms with
  | nil => rfl
  | cons m rest ih =>
    unfold collectEntries
    rw [ih (fun m2 hm2 => hnm m2 (List.mem_cons_of_mem m hm2)), List.append_nil]
    unfold entriesFor
    obtain ⟨ht, hb⟩ := hnm m (List.mem_cons_self m rest)
    split
    · rw [if_neg (fun hh => ht hh.symm), if_neg (fun hh => hb hh.symm), List.append_nil]
    · rfl

/-- Lemma: `process_period` keeps a default-state athlete who wrestles no match of
the period at the default state (the empty-result update clamps the widened
RD back to the 350 cap). -/
theorem processPeriod_keeps_default (e : Glicko2) (ms : List MatchResult)
    (h2h : String × String → ℕ) (wc : List (String × List (String × ℕ))) (w : String)
    (hmin : e.min_rd = 30) (hmax : e.max_rd = 350)
    (hw : alookup e.states w = some defaultState)
    (hnm : ∀ m ∈ ms, m.top_id ≠ w ∧ m.bottom_id ≠ w) :
    alookup (processPeriod e ms h2h wc).engine.states w = some defaultState := by
  rw [processPeriod_lookup]
  rw [collectEntries_nil_of_absent e e.states w ms hnm]
  have htouch : ¬ touchedP w ms := by
    rintro ⟨m, hm, -, hor⟩
    obtain ⟨ht, hb⟩ := hnm m hm
    exact hor.elim (fun hh => ht hh.symm) (fun hh => hb hh.symm)
  rw [if_neg htouch, hw]
  simp [updatePlayer_nil, emptyUpdate_default e hmin hmax]

/-- One `run_simulation` period step keeps a default-state athlete who
wrestles no match of the period at the default state. -/
theorem runStep_keeps_default (floorOpt : Option ℝ) (acc : RunAcc)
    (pm : RatingPeriod × List MatchResult) (w : String)
    (hmin : acc.e.min_rd = 30) (hmax : acc.e.max_rd = 350)
    (hw : alookup acc.e.states w = some defaultState)
    (hnm : ∀ m ∈ pm.2, m.top_id ≠ w ∧ m.bottom_id ≠ w) :
    alookup (runStep floorOpt acc pm).e.states w = some defaultState ∧
    (runStep floorOpt acc pm).e.min_rd = 30 ∧ (runStep floorOpt acc pm).e.max_rd = 350 := by
  unfold runStep
  rcases hpe : acc.prev_end with _ | pe
  · dsimp only
    by_cases hrs : floorOpt.isSome = true ∧ acc.prev_season ≠ some pm.1.season
    · rw [if_pos hrs]
      obtain ⟨k1, k2, k3⟩ := reset_keeps_default acc.e w hmin hmax hw
      obtain ⟨-, f2, f3, -⟩ := processPeriod_fields (resetRdForSeason acc.e) pm.2 acc.h2h acc.wc
      exact ⟨processPeriod_keeps_default _ pm.2 acc.h2h acc.wc w k2 k3 k1 hnm,
        f2.trans k2, f3.trans k3⟩
    · rw [if_neg hrs]
      obtain ⟨-, f2, f3, -⟩ := processPeriod_fields acc.e pm.2 acc.h2h acc.wc
      exact ⟨processPeriod_keeps_default _ pm.2 acc.h2h acc.wc w hmin hmax hw hnm,
        f2.trans hmin, f3.trans hmax⟩
  · dsimp only
    obtain ⟨i1, i2, i3⟩ := inflate_keeps_default acc.e (monthsBetween pe pm.1.start) w hmin hmax hw
    by_cases hrs : floorOpt.isSome = true ∧ acc.prev_season ≠ some pm.1.season
    · rw [if_pos hrs]
      obtain ⟨k1, k2, k3⟩ := reset_keeps_default _ w i2 i3 i1
      obtain ⟨-, f2, f3, -⟩ := processPeriod_fields
        (resetRdForSeason (inflateForGap acc.e (monthsBetween pe pm.1.start))) pm.2 acc.h2h acc.wc
      exact ⟨processPeriod_keeps_default _ pm.2 acc.h2h acc.wc w k2 k3 k1 hnm,
        f2.trans k2, f3.trans k3⟩
    · rw [if_neg hrs]
      obtain ⟨-, f2, f3, -⟩ := processPeriod_fields
        (inflateForGap acc.e (monthsBetween pe pm.1.start)) pm.2 acc.h2h acc.wc
      exact ⟨processPeriod_keeps_default _ pm.2 acc.h2h acc.wc w i2 i3 i1 hnm,
        f2.trans i2, f3.trans i3⟩

/-- Folding the period loop keeps a never-wrestling default athlete at the
default state. -/
theorem foldl_runStep_keeps_default (floorOpt : Option ℝ)
    (l : List (RatingPeriod × List MatchResult)) (acc : RunAcc) (w : String)
    (hmin : acc.e.min_rd = 30) (hmax : acc.e.max_rd = 350)
    (hw : alookup acc.e.states w = some defaultState)
    (hnm : ∀ pm ∈ l, ∀ m ∈ pm.2, m.top_id ≠ w ∧ m.bottom_id ≠ w) :
    alookup ((l.foldl (runStep floorOpt) acc).e.states) w = some defaultState := by
  induction l generalizing acc with
  | nil => exact hw
  | cons pm rest ih =>
    rw [List.foldl_cons]
    obtain ⟨h1, h2, h3⟩ := runStep_keeps_default floorOpt acc pm w hmin hmax hw
      (hnm pm (List.mem_cons_self pm rest))
    exact ih _ h2 h3 h1 (fun pm2 hpm2 => hnm pm2 (List.mem_cons_of_mem pm hpm2))

/-- C6: an athlete id handed to `run_simulation` that appears in no match of
any bucket ends the run exactly at the default state (rating 1500, RD 350,
sigma 0.06), for any period sequence, buckets, tau and season floor: the
empty-result update, the gap inflation and the season reset all clamp the
already-maximal default RD back to 350 and never touch rating or sigma. -/
theorem c6_untouched_athlete_default (periods : List RatingPeriod)
    (matchesByPeriod : List (List MatchResult)) (wrestlers : List String)
    (tau : ℝ) (floorOpt : Option ℝ) (w : String)
    (hw : w ∈ wrestlers)
    (hnm : ∀ bucket ∈ matchesByPeriod, ∀ m ∈ bucket, m.top_id ≠ w ∧ m.bottom_id ≠ w) :
    alookup (runSimulation periods matchesByPeriod wrestlers tau floorOpt).ratings w
      = some defaultState := by
  unfold runSimulation
  dsimp only
  apply foldl_runStep_keeps_default
  · rw [(foldl_ensure_fields wrestlers _).2.1]
    show MIN_RD = 30
    unfold MIN_RD
    norm_num
  · rw [(foldl_ensure_fields wrestlers _).2.2]
    show MAX_RD = 350
    unfold MAX_RD
    norm_num
  · rw [foldl_ensure_lookup, if_pos hw]
    rfl
  · intro pm hpm m hm
    exact hnm pm.2 (List.of_mem_zip hpm).2 m hm

/-- Witness for C6 on a one-period run with an idle athlete. -/
theorem c6_witness :
    alookup (runSimulation [⟨0, 2592000, "s1"⟩] [[]] ["z"] 0.5 (some 150)).ratings "z"
      = some defaultState :=
  c6_untouched_athlete_default [⟨0, 2592000, "s1"⟩] [[]] ["z"] 0.5 (some 150) "z"
    (by simp)
    (by
      intro bucket hb m hm
      simp only [List.mem_singleton] at hb
      subst hb
      exact absurd hm (List.not_mem_nil m))

/-- C7 (amended): `inflate_for_gap` is a no-op for non-positive months; for a
6-month gap it maps every tracked state through `inflateState`, which keeps
rating and sigma, never *decreases* an in-range RD, and *strictly* increases
the RD exactly when it is still below the 350 cap and sigma is nonzero.  (An
athlete already at RD 350 - the default - is clamped back to 350, so not
the RD of every tracked athlete increases, only the uncapped ones.) -/
theorem c7_amended_inflate (e : Glicko2) (hmin : e.min_rd = 30) (hmax : e.max_rd = 350) :
    (∀ months : ℝ, months ≤ 0 → inflateForGap e months = e) ∧
    (inflateForGap e 6).states = mapStates (inflateState e 6) e.states ∧
    (∀ s : Glicko2State, (inflateState e 6 s).rating = s.rating ∧
      (inflateState e 6 s).sigma = s.sigma) ∧
    (∀ s : Glicko2State, 30 ≤ s.rd → s.rd ≤ 350 → s.rd ≤ (inflateState e 6 s).rd) ∧
    (∀ s : Glicko2State, 30 ≤ s.rd → s.rd < 350 → s.sigma ≠ 0 →
      s.rd < (inflateState e 6 s).rd) := by
  refine ⟨?_, ?_, ?_, ?_, ?_⟩
  · intro months hm
    unfold inflateForGap
    rw [if_pos hm]
  · unfold inflateForGap
    rw [if_neg (by norm_num)]
  · intro s
    exact ⟨rfl, rfl⟩
  · intro s h30 h350
    unfold inflateState
    dsimp only
    rw [hmin, hmax]
    have hx : s.rd ≤ Real.sqrt (s.rd / SCALE * (s.rd / SCALE) + 6 * s.sigma * s.sigma) * SCALE :=
      rd_le_sqrt_scale s.rd (6 * s.sigma * s.sigma) (by linarith)
        (by nlinarith [mul_self_nonneg s.sigma])
    exact le_min h350 (le_trans hx (le_max_right 30 _))
  · intro s h30 h350 hsig
    unfold inflateState
    dsimp only
    rw [hmin, hmax]
    have hS : (0:ℝ) < SCALE := by unfold SCALE; norm_num
    have hq : (0:ℝ) ≤ s.rd / SCALE := by positivity
    have hlt : s.rd / SCALE < Real.sqrt (s.rd / SCALE * (s.rd / SCALE) + 6 * s.sigma * s.sigma) := by
      apply (Real.lt_sqrt hq).mpr
      have hss : 0 < s.sigma * s.sigma := mul_self_pos.mpr hsig
      nlinarith
    have hx : s.rd < Real.sqrt (s.rd / SCALE * (s.rd / SCALE) + 6 * s.sigma * s.sigma) * SCALE := by
      calc s.rd = s.rd / SCALE * SCALE := by field_simp
      _ < _ := mul_lt_mul_of_pos_right hlt hS
    apply lt_min h350
    exact lt_of_lt_of_le hx (le_max_right 30 _)

/-- The engine of the C7 counterexample: one tracked athlete at the default
state, whose RD already sits at the 350 cap. -/
noncomputable def eC7 : Glicko2 :=
  { glicko2Init 0.5 150 with states := [("a", defaultState)] }

/-- C7 counterexample: `inflate_for_gap(6)` does *not* increase every tracked
athlete RD - an athlete at the default state (RD 350 = max_rd) comes out
with RD exactly 350 again, because the widened deviation is clamped back to
the cap. -/
theorem c7_counterexample :
    sod eC7.states "a" = defaultState ∧
    sod (inflateForGap eC7 6).states "a" = defaultState ∧
    ¬ ((sod eC7.states "a").rd < (sod (inflateForGap eC7 6).states "a").rd) := by
  have hmin : eC7.min_rd = 30 := by
    show MIN_RD = 30
    unfold MIN_RD
    norm_num
  have hmax : eC7.max_rd = 350 := by
    show MAX_RD = 350
    unfold MAX_RD
    norm_num
  have h0 : alookup eC7.states "a" = some defaultState := by
    simp [eC7, alookup]
  obtain ⟨h1, -, -⟩ := inflate_keeps_default eC7 6 "a" hmin hmax h0
  refine ⟨?_, ?_, ?_⟩
  · unfold sod
    rw [h0]
    rfl
  · unfold sod
    rw [h1]
    rfl
  · unfold sod
    rw [h0, h1]
    exact lt_irrefl _

/-- Witness for the amended theorem of C7 on a default-configured engine. -/
theorem c7_witness :
    (∀ months : ℝ, months ≤ 0 → inflateForGap (glicko2Init 0.5 150) months = glicko2Init 0.5 150) ∧
    (inflateForGap (glicko2Init 0.5 150) 6).states
      = mapStates (inflateState (glicko2Init 0.5 150) 6) (glicko2Init 0.5 150).states ∧
    (∀ s : Glicko2State, (inflateState (glicko2Init 0.5 150) 6 s).rating = s.rating ∧
      (inflateState (glicko2Init 0.5 150) 6 s).sigma = s.sigma) ∧
    (∀ s : Glicko2State, 30 ≤ s.rd → s.rd ≤ 350 →
      s.rd ≤ (inflateState (glicko2Init 0.5 150) 6 s).rd) ∧
    (∀ s : Glicko2State, 30 ≤ s.rd → s.rd < 350 → s.sigma ≠ 0 →
      s.rd < (inflateState (glicko2Init 0.5 150) 6 s).rd) :=
  c7_amended_inflate (glicko2Init 0.5 150)
    (by show MIN_RD = 30; unfold MIN_RD; norm_num)
    (by show MAX_RD = 350; unfold MAX_RD; norm_num)

/-- A well-formed prediction pair: probability strictly inside `(0, 1)` and a
0/1 outcome. -/
def PredOK (pa : ℝ × ℝ) : Prop :=
  0 < pa.1 ∧ pa.1 < 1 ∧ (pa.2 = 0 ∨ pa.2 = 1)

/-- Lemma: `win_probability` lands strictly inside `(0, 1)`. -/
theorem winProbability_mem (a b : Glicko2State) :
    0 < winProbability a b ∧ winProbability a b < 1 := by
  unfold winProbability
  exact expectedScore_mem _ _ _

/-- Any pair produced by `predFor` is well formed. -/
theorem predFor_ok (sts : List (String × Glicko2State)) (m : MatchResult) (pa : ℝ × ℝ)
    (h : predFor sts m = some pa) : PredOK pa := by
  unfold predFor at h
  split at h
  · injection h with h2
    subst h2
    refine ⟨(winProbability_mem _ _).1, (winProbability_mem _ _).2, ?_⟩
    unfold actualTop
    split
    · exact Or.inr (by norm_num)
    · exact Or.inl (by norm_num)
  · exact Option.noConfusion h

/-- Every pair `process_period` appends is well formed. -/
theorem processPeriod_preds_ok (e : Glicko2) (ms : List MatchResult)
    (h2h : String × String → ℕ) (wc : List (String × List (String × ℕ))) :
    ∀ pa ∈ (processPeriod e ms h2h wc).predictions, PredOK pa := by
  intro pa hpa
  rw [processPeriod_preds] at hpa
  obtain ⟨m, _, hsome⟩ := List.mem_filterMap.mp hpa
  exact predFor_ok _ _ _ hsome

/-- One run step only appends well-formed pairs. -/
theorem runStep_preds_ok (floorOpt : Option ℝ) (acc : RunAcc)
    (pm : RatingPeriod × List MatchResult)
    (hacc : ∀ pa ∈ acc.preds, PredOK pa) :
    ∀ pa ∈ (runStep floorOpt acc pm).preds, PredOK pa := by
  unfold runStep
  dsimp only
  intro pa hpa
  rcases List.mem_append.mp hpa with h | h
  · exact hacc pa h
  · exact processPeriod_preds_ok _ _ _ _ pa h

/-- The whole period loop only accumulates well-formed pairs. -/
theorem foldl_runStep_preds_ok (floorOpt : Option ℝ)
    (l : List (RatingPeriod × List MatchResult)) (acc : RunAcc)
    (hacc : ∀ pa ∈ acc.preds, PredOK pa) :
    ∀ pa ∈ ((l.foldl (runStep floorOpt) acc).preds), PredOK pa := by
  induction l generalizing acc with
  | nil => exact hacc
  | cons pm rest ih =>
    rw [List.foldl_cons]
    exact ih _ (runStep_preds_ok floorOpt acc pm hacc)

/-- The Brier score of any list of well-formed pairs lies in `[0, 1]`. -/
theorem evaluatePredictions_brier_mem (preds : List (ℝ × ℝ))
    (h : ∀ pa ∈ preds, PredOK pa) :
    0 ≤ (evaluatePredictions preds).1 ∧ (evaluatePredictions preds).1 ≤ 1 := by
  unfold evaluatePredictions
  by_cases he : preds.isEmpty
  · rw [if_pos he]
    norm_num
  · rw [if_neg he]
    dsimp only
    have hlen : 0 < (preds.length : ℝ) := by
      have hne : preds ≠ [] := fun hh => he (by rw [hh]; rfl)
      exact_mod_cast List.length_pos.mpr hne
    constructor
    · apply div_nonneg _ (le_of_lt hlen)
      apply List.sum_nonneg
      intro x hx
      obtain ⟨pa, _, rfl⟩ := List.mem_map.mp hx
      exact sq_nonneg _
    · rw [div_le_one hlen]
      have hb : ∀ x ∈ preds.map (fun pa => (pa.1 - pa.2) ^ 2), x ≤ 1 := by
        intro x hx
        obtain ⟨pa, hpa, rfl⟩ := List.mem_map.mp hx
        obtain ⟨h1, h2, h3⟩ := h pa hpa
        rcases h3 with h3 | h3 <;> rw [h3] <;> nlinarith
      calc (preds.map (fun pa => (pa.1 - pa.2) ^ 2)).sum
          ≤ (preds.map (fun pa => (pa.1 - pa.2) ^ 2)).length • (1:ℝ) :=
            List.sum_le_card_nsmul _ _ hb
      _ = preds.length := by rw [List.length_map, nsmul_eq_mul, mul_one]

/-- C10: `win_probability` always returns a value strictly between 0 and 1;
hence every `(probability, actual)` pair collected by a run has its
probability in the open interval `(0, 1)` and a 0/1 outcome, and the Brier
score `evaluate_predictions` computes from any run lies in `[0, 1]`. -/
theorem c10_probability_bounds (periods : List RatingPeriod)
    (matchesByPeriod : List (List MatchResult)) (wrestlers : List String)
    (tau : ℝ) (floorOpt : Option ℝ) :
    (∀ a b : Glicko2State, 0 < winProbability a b ∧ winProbability a b < 1) ∧
    (∀ pa ∈ (runSimulation periods matchesByPeriod wrestlers tau floorOpt).predictions,
      PredOK pa) ∧
    (0 ≤ (evaluatePredictions
        (runSimulation periods matchesByPeriod wrestlers tau floorOpt).predictions).1 ∧
      (evaluatePredictions
        (runSimulation periods matchesByPeriod wrestlers tau floorOpt).predictions).1 ≤ 1) := by
  have hok : ∀ pa ∈ (runSimulation periods matchesByPeriod wrestlers tau floorOpt).predictions,
      PredOK pa := by
    unfold runSimulation
    dsimp only
    exact foldl_runStep_preds_ok _ _ _
      (by intro pa hpa; exact absurd hpa (List.not_mem_nil pa))
  exact ⟨fun a b => winProbability_mem a b, hok, evaluatePredictions_brier_mem _ hok⟩

/-- The strict-improvement fold of `tune_tau` (lines 394-399) always returns
the *first* candidate attaining the minimum of the first component of the metric:
the chosen element splits the list as `l1 ++ chosen :: l2` with strictly
larger values on all of `l1` and no smaller value anywhere. -/
theorem tuneFold_spec (b : ℝ → ℝ × ℝ) :
    ∀ (l : List ℝ) (t0 : ℝ),
    ∃ l1 l2 ch, (t0 :: l) = l1 ++ ch :: l2 ∧
      l.foldl (fun best t => if (b t).1 < best.2.1 then (t, b t) else best) (t0, b t0)
        = (ch, b ch) ∧
      (∀ u ∈ l1, (b ch).1 < (b u).1) ∧
      (∀ u ∈ t0 :: l, (b ch).1 ≤ (b u).1) := by
  intro l
  induction l with
  | nil =>
    intro t0
    refine ⟨[], [], t0, rfl, rfl, by intro u hu; exact absurd hu (List.not_mem_nil u), ?_⟩
    intro u hu
    rcases List.mem_cons.mp hu with rfl | hu
    · exact le_refl _
    · exact absurd hu (List.not_mem_nil u)
  | cons x l ih =>
    intro t0
    rw [List.foldl_cons]
    by_cases hx : (b x).1 < (b t0).1
    · rw [if_pos hx]
      obtain ⟨l1, l2, ch, hdec, hfold, hstrict, hmin⟩ := ih x
      refine ⟨t0 :: l1, l2, ch, ?_, hfold, ?_, ?_⟩
      · rw [List.cons_append, ← hdec]
      · intro u hu
        rcases List.mem_cons.mp hu with rfl | hu
        · exact lt_of_le_of_lt (hmin x (List.mem_cons_self x l)) hx
        · exact hstrict u hu
      · intro u hu
        rcases List.mem_cons.mp hu with rfl | hu
        · exact le_of_lt (lt_of_le_of_lt (hmin x (List.mem_cons_self x l)) hx)
        · exact hmin u hu
    · rw [if_neg hx]
      obtain ⟨l1, l2, ch, hdec, hfold, hstrict, hmin⟩ := ih t0
      cases l1 with
      | nil =>
        rw [List.nil_append] at hdec
        injection hdec with h1 h2
        refine ⟨[], x :: l2, ch, ?_, hfold, ?_, ?_⟩
        · show t0 :: x :: l = ch :: x :: l2
          rw [h1, h2]
        · intro u hu
          exact absurd hu (List.not_mem_nil u)
        · intro u hu
          rcases List.mem_cons.mp hu with rfl | hu
          · exact le_of_eq (by rw [h1])
          · rcases List.mem_cons.mp hu with rfl | hu
            · rw [← h1]
              exact le_of_not_lt hx
            · rw [← h1]
              rw [h2] at hu
              have hm := hmin u (List.mem_cons_of_mem t0 (h2 ▸ hu))
              rw [← h1] at hm
              exact hm
      | cons a r =>
        rw [List.cons_append] at hdec
        injection hdec with h1 h2
        subst h1
        have hcht0 : (b ch).1 < (b t0).1 := hstrict t0 (List.mem_cons_self t0 r)
        refine ⟨t0 :: x :: r, l2, ch, ?_, hfold, ?_, ?_⟩
        · rw [h2]
          rfl
        · intro u hu
          rcases List.mem_cons.mp hu with rfl | hu
          · exact hcht0
          · rcases List.mem_cons.mp hu with rfl | hu
            · exact lt_of_lt_of_le hcht0 (le_of_not_lt hx)
            · exact hstrict u (List.mem_cons_of_mem t0 hu)
        · intro u hu
          rcases List.mem_cons.mp hu with rfl | hu
          · exact le_of_lt hcht0
          · rcases List.mem_cons.mp hu with rfl | hu
            · exact le_of_lt (lt_of_lt_of_le hcht0 (le_of_not_lt hx))
            · exact hmin u (List.mem_cons_of_mem t0 hu)

/-- C9: for a nonempty candidate list, `tune_tau` returns the first candidate
whose run attains the minimum Brier score, paired with exactly the metrics of that run, namely its
`(brier, accuracy)` metrics: every earlier candidate has a strictly larger
Brier score and no candidate a smaller one, and accuracy is never compared.
Determinism is immediate: `tuneTau` is a pure function of its arguments. -/
theorem c9_tune_tau_selection (periods : List RatingPeriod)
    (matchesByPeriod : List (List MatchResult)) (wrestlers : List String)
    (candidates : List ℝ) (h : candidates ≠ []) :
    ∃ l1 l2 chosen, candidates = l1 ++ chosen :: l2 ∧
      tuneTau periods matchesByPeriod wrestlers candidates
        = some (chosen, tauMetrics periods matchesByPeriod wrestlers chosen) ∧
      (∀ u ∈ l1, (tauMetrics periods matchesByPeriod wrestlers chosen).1
        < (tauMetrics periods matchesByPeriod wrestlers u).1) ∧
      (∀ u ∈ candidates, (tauMetrics periods matchesByPeriod wrestlers chosen).1
        ≤ (tauMetrics periods matchesByPeriod wrestlers u).1) := by
  cases candidates with
  | nil => exact absurd rfl h
  | cons c rest =>
    obtain ⟨l1, l2, ch, hdec, hfold, hstrict, hmin⟩ :=
      tuneFold_spec (tauMetrics periods matchesByPeriod wrestlers) rest c
    refine ⟨l1, l2, ch, hdec, ?_, hstrict, hmin⟩
    unfold tuneTau
    dsimp only
    rw [hfold]

/-- Witness for C9 on a singleton candidate list. -/
theorem c9_witness :
    ∃ l1 l2 chosen, ([(1:ℝ)] : List ℝ) = l1 ++ chosen :: l2 ∧
      tuneTau [] [] [] [1] = some (chosen, tauMetrics [] [] [] chosen) ∧
      (∀ u ∈ l1, (tauMetrics [] [] [] chosen).1 < (tauMetrics [] [] [] u).1) ∧
      (∀ u ∈ ([(1:ℝ)] : List ℝ), (tauMetrics [] [] [] chosen).1 ≤ (tauMetrics [] [] [] u).1) :=
  c9_tune_tau_selection [] [] [] [1] (by simp)

/-- Stable insertion into a sorted list: `x` goes before the first element it
compares less-or-equal to, so elements the comparator calls equal keep their
original relative order. -/
def insertStable {α : Type} (le : α → α → Bool) (x : α) : List α → List α
  | [] => [x]
  | y :: ys => if le x y then x :: y :: ys else y :: insertStable le x ys

/-- A stable comparison sort, modelling the CPython `sorted` with
`cmp_to_key` (line 597): `sorted` is specified only as *a stable sort by the
comparator*; like Timsort, this insertion sort returns any input whose
adjacent pairs the comparator already accepts (compares `<= 0`) unchanged. -/
def sortStable {α : Type} (le : α → α → Bool) : List α → List α
  | [] => []
  | x :: xs => insertStable le x (sortStable le xs)

/-- ratings.py line 558: `counter.most_common(1)` - the first key attaining
the maximal count (`heapq.nlargest` is stable, so ties keep insertion
order); `none` on an empty counter. -/
def mostCommon (counter : List (String × ℕ)) : Option String :=
  match counter with
  | [] => none
  | c :: rest => some ((rest.foldl (fun best p => if best.2 < p.2 then p else best) c).1)

/-- ratings.py lines 548-559: `primary_weight_class` - an override wins;
otherwise the mode of the usage counter of the athlete; `None` when the athlete
has no (or an empty) counter.  An empty override mapping is falsy in Python,
which coincides with its lookups all being `none`. -/
def primaryWeightClass (weight_counts : List (String × List (String × ℕ)))
    (wrestler_id : String) (overrides : List (String × String)) : Option String :=
  match alookup overrides wrestler_id with
  | some w => some w
  | none =>
    match alookup weight_counts wrestler_id with
    | none => none
    | some counter => mostCommon counter

/-- ratings.py lines 580-588: the leaderboard comparator `cmp` - rating
first (descending) outside the 1e-6 tolerance, then net head-to-head, else
0.  `result.ratings[a]` is only ever called on keys of the dict (the
candidates), embedded through the state-or-default view. -/
noncomputable def lbCmp (result : RatingRunResult) (a b : String) : ℤ :=
  let ra := (sod result.ratings a).rating
  let rb := (sod result.ratings b).rating
  if |ra - rb| > 1e-6 then (if ra > rb then -1 else 1)
  else
    let hh : ℤ := (result.head_to_head (a, b) : ℤ) - (result.head_to_head (b, a) : ℤ)
    if hh ≠ 0 then (if hh > 0 then -1 else 1) else 0

/-- ratings.py lines 562-617 restricted to the ranking output
`weight_rankings`: per target class, filter the tracked ids to the allow-set
and matching primary class (preserving the enumeration order of the dict), sort
stably by the comparator, truncate to the limit.  The flat display registry
(lines 601-613, rounded presentation fields) does not affect rankings and is
omitted. -/
noncomputable def buildLeaderboardRankings (result : RatingRunResult)
    (weight_classes : List String) (limit : Option ℕ) (allowed_ids : List String)
    (weight_overrides : List (String × String)) : List (String × List String) :=
  weight_classes.map (fun weight =>
    let candidates := (result.ratings.map Prod.fst).filter
      (fun wrestler_id => allowed_ids.contains wrestler_id &&
        decide (primaryWeightClass result.weight_counts wrestler_id weight_overrides
          = some weight))
    let ranked := sortStable (fun a b => decide (lbCmp result a b ≤ 0)) candidates
    (weight, match limit with
      | none => ranked
      | some n => ranked.take n))

/-- C8 (amended): when the weight class contains exactly the two athletes,
the 2-0 head-to-head winner within the 1e-6 rating tolerance is ranked
first, for *either* enumeration order of the candidates - the two are then
actually compared, `cmp` returns -1/1 antisymmetrically, and the stable sort
orders them by it.  (With additional equal-rated candidates in the class the
comparator is not transitive and the guarantee fails; see the
counterexample.) -/
theorem c8_amended_tiebreak (res : RatingRunResult) (W L : String)
    (sW sL : Glicko2State) (weight : String) (allowed : List String)
    (ovr : List (String × String))
    (hWL : W ≠ L)
    (hr : res.ratings = [(W, sW), (L, sL)] ∨ res.ratings = [(L, sL), (W, sW)])
    (hrate : |sW.rating - sL.rating| ≤ 1e-6)
    (hh1 : res.head_to_head (W, L) = 2) (hh2 : res.head_to_head (L, W) = 0)
    (haW : allowed.contains W = true) (haL : allowed.contains L = true)
    (hpW : primaryWeightClass res.weight_counts W ovr = some weight)
    (hpL : primaryWeightClass res.weight_counts L ovr = some weight) :
    buildLeaderboardRankings res [weight] none allowed ovr = [(weight, [W, L])] := by
  have hLW : ¬ (L = W) := fun hh => hWL hh.symm
  have hsW : sod res.ratings W = sW := by
    rcases hr with hr | hr <;> rw [sod, hr]
    · simp [alookup]
    · simp [alookup, hLW]
  have hsL : sod res.ratings L = sL := by
    rcases hr with hr | hr <;> rw [sod, hr]
    · simp [alookup, hWL]
    · simp [alookup]
  have hcmpWL : lbCmp res W L ≤ 0 := by
    unfold lbCmp
    dsimp only
    rw [hsW, hsL, if_neg (not_lt.mpr hrate), hh1, hh2]
    norm_num
  have hcmpLW : ¬ (lbCmp res L W ≤ 0) := by
    unfold lbCmp
    dsimp only
    rw [hsW, hsL, abs_sub_comm, if_neg (not_lt.mpr hrate), hh1, hh2]
    norm_num
  have hpredW : (allowed.contains W &&
      decide (primaryWeightClass res.weight_counts W ovr = some weight)) = true := by
    rw [haW, hpW]
    simp
  have hpredL : (allowed.contains L &&
      decide (primaryWeightClass res.weight_counts L ovr = some weight)) = true := by
    rw [haL, hpL]
    simp
  have hsort1 : sortStable (fun a b => decide (lbCmp res a b ≤ 0)) [W, L] = [W, L] := by
    simp only [sortStable, insertStable, decide_eq_true hcmpWL]
    rfl
  have hsort2 : sortStable (fun a b => decide (lbCmp res a b ≤ 0)) [L, W] = [W, L] := by
    simp only [sortStable, insertStable, decide_eq_false hcmpLW]
    rfl
  unfold buildLeaderboardRankings
  rw [List.map_cons, List.map_nil]
  dsimp only
  rcases hr with hr | hr <;> rw [hr]
  · rw [show ((([(W, sW), (L, sL)] : List (String × Glicko2State)).map Prod.fst).filter
        (fun wrestler_id => allowed.contains wrestler_id &&
          decide (primaryWeightClass res.weight_counts wrestler_id ovr = some weight)))
        = [W, L] by
      simp only [List.map_cons, List.map_nil, List.filter, hpredW, hpredL]]
    rw [hsort1]
  · rw [show ((([(L, sL), (W, sW)] : List (String × Glicko2State)).map Prod.fst).filter
        (fun wrestler_id => allowed.contains wrestler_id &&
          decide (primaryWeightClass res.weight_counts wrestler_id ovr = some weight)))
        = [L, W] by
      simp only [List.map_cons, List.map_nil, List.filter, hpredW, hpredL]]
    rw [hsort2]

/-- The run result for the C8 counterexample: three athletes in weight class
"106" with *identical* ratings; "w3" holds a 2-0 head-to-head over "l1";
"m2" has no head-to-head with either. -/
noncomputable def resC8 : RatingRunResult :=
  ⟨[("l1", ⟨1500, 100, 0.06⟩), ("m2", ⟨1500, 100, 0.06⟩), ("w3", ⟨1500, 100, 0.06⟩)],
    fun k => if k = ("w3", "l1") then 2 else 0,
    [("l1", [("106", 1)]), ("m2", [("106", 1)]), ("w3", [("106", 1)])],
    []⟩

/-- The comparator calls `cmp l1 m2 = 0` on the C8 counterexample. -/
theorem c8cmp1 : lbCmp resC8 "l1" "m2" = 0 := by
  unfold lbCmp
  dsimp only
  have hra : (sod resC8.ratings "l1").rating = 1500 := by
    simp [resC8, sod, alookup]
  have hrb : (sod resC8.ratings "m2").rating = 1500 := by
    simp [resC8, sod, alookup]
  rw [hra, hrb, if_neg (by norm_num)]
  have h1 : resC8.head_to_head ("l1", "m2") = 0 := by simp [resC8]
  have h2 : resC8.head_to_head ("m2", "l1") = 0 := by simp [resC8]
  rw [h1, h2]
  norm_num

/-- The comparator calls `cmp m2 w3 = 0` on the C8 counterexample. -/
theorem c8cmp2 : lbCmp resC8 "m2" "w3" = 0 := by
  unfold lbCmp
  dsimp only
  have hra : (sod resC8.ratings "m2").rating = 1500 := by
    simp [resC8, sod, alookup]
  have hrb : (sod resC8.ratings "w3").rating = 1500 := by
    simp [resC8, sod, alookup]
  rw [hra, hrb, if_neg (by norm_num)]
  have h1 : resC8.head_to_head ("m2", "w3") = 0 := by simp [resC8]
  have h2 : resC8.head_to_head ("w3", "m2") = 0 := by simp [resC8]
  rw [h1, h2]
  norm_num

/-- C8 counterexample: with a third equal-rated athlete "m2" in the class,
the candidate enumeration ["l1", "m2", "w3"] is already pairwise accepted by
the comparator (all adjacent comparisons return 0), so the stable sort
returns it unchanged and the 2-0 head-to-head *loser* "l1" is ranked first,
ahead of winner "w3" - the comparator is not transitive, and the pair is
never directly compared.  This refutes "the head-to-head winner is ranked
before the loser, regardless of the order in which the candidates are
enumerated". -/
theorem c8_counterexample :
    |(sod resC8.ratings "w3").rating - (sod resC8.ratings "l1").rating| ≤ 1e-6 ∧
    resC8.head_to_head ("w3", "l1") = 2 ∧
    resC8.head_to_head ("l1", "w3") = 0 ∧
    buildLeaderboardRankings resC8 ["106"] none ["l1", "m2", "w3"] []
      = [("106", ["l1", "m2", "w3"])] := by
  refine ⟨?_, by simp [resC8], by simp [resC8], ?_⟩
  · have hra : (sod resC8.ratings "w3").rating = 1500 := by
      simp [resC8, sod, alookup]
    have hrb : (sod resC8.ratings "l1").rating = 1500 := by
      simp [resC8, sod, alookup]
    rw [hra, hrb]
    norm_num
  · unfold buildLeaderboardRankings
    rw [List.map_cons, List.map_nil]
    dsimp only
    have hcand : ((resC8.ratings.map Prod.fst).filter
        (fun wrestler_id => (["l1", "m2", "w3"] : List String).contains wrestler_id &&
          decide (primaryWeightClass resC8.weight_counts wrestler_id [] = some "106")))
        = ["l1", "m2", "w3"] := by
      have hmap : resC8.ratings.map Prod.fst = ["l1", "m2", "w3"] := by
        simp [resC8]
      rw [hmap]
      have hwc : resC8.weight_counts
          = [("l1", [("106", 1)]), ("m2", [("106", 1)]), ("w3", [("106", 1)])] := rfl
      rw [hwc]
      decide
    rw [hcand]
    have hsort : sortStable (fun a b => decide (lbCmp resC8 a b ≤ 0)) ["l1", "m2", "w3"]
        = ["l1", "m2", "w3"] := by
      simp only [sortStable, insertStable, c8cmp1, c8cmp2]
      norm_num
    rw [hsort]

/-- Witness for the amended theorem of C8 on a concrete two-athlete class. -/
theorem c8_witness :
    buildLeaderboardRankings
      (RatingRunResult.mk [("win", ⟨1500, 90, 0.06⟩), ("los", ⟨1500, 90, 0.06⟩)]
        (fun k => if k = ("win", "los") then 2 else 0)
        [("win", [("120", 1)]), ("los", [("120", 1)])] [])
      ["120"] none ["win", "los"] [] = [("120", ["win", "los"])] := by
  apply c8_amended_tiebreak
    (RatingRunResult.mk [("win", ⟨1500, 90, 0.06⟩), ("los", ⟨1500, 90, 0.06⟩)]
      (fun k => if k = ("win", "los") then 2 else 0)
      [("win", [("120", 1)]), ("los", [("120", 1)])] [])
    "win" "los" ⟨1500, 90, 0.06⟩ ⟨1500, 90, 0.06⟩ "120" ["win", "los"] []
  · decide
  · exact Or.inl rfl
  · norm_num
  · simp
  · simp
  · decide
  · decide
  · decide
  · decide

/-- Witness for C10 at the default state and a trivial run. -/
theorem c10_witness :
    0 < winProbability defaultState defaultState ∧
      winProbability defaultState defaultState < 1 :=
  (c10_probability_bounds [] [] [] 1 none).1 defaultState defaultState
